import Mathlib

/-!
Verification of the brianscheme runtime core: the Baker-style garbage
collector of `src/gc.c` and the bytecode virtual machine of `src/vm.c`,
embedded shallowly.  Heap cells are identified by natural-number ids; the
heap is a `List Obj` indexed by id, and the doubly-linked Active/Old heap
lists of gc.c are lists of ids (head of the Lean list = head of the C
list).  Machine `long`s appear as `Int` where sign matters and `Nat`
elsewhere; the GC color byte is a `char`, so colors are kept reduced
mod 256 and compared by equality exactly as the C does.
-/

set_option maxHeartbeats 1600000

/-- Runtime object payloads, one constructor per variant tag of types.h as
used by gc.c and vm.c.  Reference-valued fields hold cell ids.  `synProc`
is SYNTAX_PROC, `compiledSynProc` is COMPILED_SYNTAX_PROC, `raw` is a
fresh cell from extend_heap whose payload is still uninitialised. -/
inductive Obj where
  | fixnum (n : Int)
  | character (c : Nat)
  | strObj (s : String)
  | symObj (s : String)
  | emptyList
  | boolean (b : Bool)
  | pair (car cdr : Nat)
  | vec (elems : List Nat)
  | compoundProc (env params body : Nat)
  | synProc (env params body : Nat)
  | compiledProc (bytecode env : Nat)
  | compiledSynProc (bytecode env : Nat)
  | metaProc (proc meta : Nat)
  | primitiveProc
  | hashTable (entries : List (Nat × Nat))
  | raw
  deriving DecidableEq

/-- Object references scanned per variant, exactly the switch of
move_reachable (src/gc.c:410-444): PAIR scans car and cdr; COMPOUND_PROC
and SYNTAX_PROC scan env, params, body; VECTOR scans every element;
COMPILED_PROC and COMPILED_SYNTAX_PROC scan bytecode and env; META_PROC
scans proc and metadata; HASH_TABLE scans every key and value.  All other
variants hold no object references. -/
def scanFields : Obj → List Nat
  | .pair a d => [a, d]
  | .compoundProc e p b => [e, p, b]
  | .synProc e p b => [e, p, b]
  | .vec es => es
  | .compiledProc bc e => [bc, e]
  | .compiledSynProc bc e => [bc, e]
  | .metaProc p m => [p, m]
  | .hashTable es => es.foldr (fun kv acc => kv.1 :: kv.2 :: acc) []
  | _ => []

/-!  The stack_set of gc.c (src/gc.c:246-294).  A stack_set is modelled by
the list of its logical contents `objs[0..top-1]` written TOP FIRST: the
head of the Lean list is the element at index `top - 1`.  The entries are
opaque addresses, modelled as `Nat`. -/

/-- Body of the slow path of stack_set_pop (src/gc.c:279-291): walk from
index `top - 2` downward carrying `last` (initially the old top entry),
shifting each visited entry up by one slot, and stop at the first entry
equal to `value`; `none` means the value was absent (the C then returns 0).
In the top-first list model, shifting slot `idx` up and storing `last`
is exactly replacing the found element with the carried prefix. -/
def scanShift (last value : Nat) : List Nat → Option (List Nat)
  | [] => none
  | x :: xs =>
    if x = value then some (last :: xs)
    else (scanShift x value xs).map (fun l => last :: l)

/-- stack_set_pop (src/gc.c:277-294) on the top-first list model: the fast
path compares the top entry; otherwise the downward scan-and-shift runs.
An empty stack is reported as a failed pop (the C reads out of bounds
there, which its own callers never do). -/
def stack_set_pop (s : List Nat) (value : Nat) : Option (List Nat) :=
  match s with
  | [] => none
  | t :: rest => if t = value then some rest else scanShift t value rest

/-- Result of pop_root: either the remaining Roots stack, or a fatal
process exit via throw_gc (exit code 2, src/gc.c:334-339). -/
inductive PopRootResult where
  | ok (s : List Nat)
  | fatal
  deriving DecidableEq

/-- pop_root (src/gc.c:334-339): a failed stack_set_pop is fatal. -/
def pop_root (s : List Nat) (value : Nat) : PopRootResult :=
  match stack_set_pop s value with
  | some s' => .ok s'
  | none => .fatal

/-- push_root (src/gc.c:329-332) on the top-first list model. -/
def push_root (s : List Nat) (value : Nat) : List Nat := value :: s

/-!  The collector state during the mark phase.  `colors` is the per-cell
color byte, parallel to the object store; `active` and `old` are the two
heap lists as lists of ids (list head = C list head); `queue` models the
scan order of move_reachable: the C scans the Old list starting from the
just-moved root and follows `prev` toward the head, and since
move_object_to_head prepends every newly moved object and re-links the
scanned node, the nodes are visited exactly in the order they were moved
in — a FIFO queue of moved-but-not-yet-scanned cells. -/
structure ScanState where
  colors : List Nat
  active : List Nat
  old : List Nat
  queue : List Nat
  deriving DecidableEq

/-- Test of `temp->color != current_color` guarded by the cell being a
real heap cell (the C reads the field of whatever pointer it was handed;
every pointer it is handed in a well-formed heap is a heap cell). -/
def unmarkedAt (colors : List Nat) (mc f : Nat) : Bool :=
  match colors[f]? with
  | some c => c != mc
  | none => false

/-- move_object_to_head (src/gc.c:113-145): unlink from the source list,
prepend to the destination list, counts updated on both sides (counts are
list lengths in this model). -/
def move_object_to_head (obj : Nat) (src dest : List Nat) : List Nat × List Nat :=
  (src.erase obj, obj :: dest)

/-- The maybe_move macro of move_reachable (src/gc.c:399-406): if the
field is not yet marked with the current color, move it from Active to
the head of the to-set, mark it, and (by the prev-scan discipline)
enqueue it for field scanning. -/
def maybeMove (mc : Nat) (st : ScanState) (f : Nat) : ScanState :=
  if unmarkedAt st.colors mc f then
    let (src, dest) := move_object_to_head f st.active st.old
    { colors := st.colors.set f mc, active := src, old := dest,
      queue := st.queue ++ [f] }
  else st

/-- Number of cells not carrying the mark color; the scan measure. -/
def unmarkedCount (colors : List Nat) (mc : Nat) : Nat :=
  (colors.filter (fun c => c != mc)).length

/-- Termination measure for the scan loop of move_reachable. -/
def scanMeasure (mc : Nat) (st : ScanState) : Nat :=
  2 * unmarkedCount st.colors mc + st.queue.length

/-- The scan loop of move_reachable (src/gc.c:408-446): dequeue the next
moved cell, run maybe_move over its variant fields in order, repeat until
no moved cell remains unscanned. -/
def scanLoop (data : List Obj) (mc : Nat) (st : ScanState) : ScanState :=
  match hq : st.queue with
  | [] => st
  | q :: rest =>
    scanLoop data mc
      ((scanFields (data.getD q .emptyList)).foldl (maybeMove mc) { st with queue := rest })
termination_by scanMeasure mc st
decreasing_by
  have hcount : ∀ (colors : List Nat) (f : Nat), unmarkedAt colors mc f = true →
      unmarkedCount (colors.set f mc) mc + 1 = unmarkedCount colors mc := by
    intro colors
    induction colors with
    | nil => intro f hf; simp [unmarkedAt] at hf
    | cons c cs ih =>
      intro f hf
      cases f with
      | zero =>
        simp only [unmarkedAt, List.getElem?_cons_zero] at hf
        simp only [List.set]
        simp only [unmarkedCount, List.filter]
        have hcne : (c != mc) = true := by simpa using hf
        simp [hcne]
      | succ f =>
        simp only [unmarkedAt, List.getElem?_cons_succ] at hf
        have := ih f hf
        simp only [List.set, unmarkedCount, List.filter] at *
        cases hb : (c != mc) <;> simp [hb] at * <;> omega
  have hstep : ∀ (t : ScanState) (f : Nat),
      scanMeasure mc (maybeMove mc t f) ≤ scanMeasure mc t := by
    intro t f
    by_cases hu : unmarkedAt t.colors mc f = true
    · have := hcount t.colors f hu
      simp [maybeMove, hu, move_object_to_head, scanMeasure]
      omega
    · simp [maybeMove, hu]
  have hfold : ∀ (fs : List Nat) (t : ScanState),
      scanMeasure mc (fs.foldl (maybeMove mc) t) ≤ scanMeasure mc t := by
    intro fs
    induction fs with
    | nil => intro t; simp
    | cons f fs ih =>
      intro t
      calc scanMeasure mc ((f :: fs).foldl (maybeMove mc) t)
          = scanMeasure mc (fs.foldl (maybeMove mc) (maybeMove mc t f)) := by simp
        _ ≤ scanMeasure mc (maybeMove mc t f) := ih _
        _ ≤ scanMeasure mc t := hstep t f
  calc scanMeasure mc ((scanFields (data.getD q .emptyList)).foldl (maybeMove mc) { st with queue := rest })
      ≤ scanMeasure mc { st with queue := rest } := hfold _ _
    _ < scanMeasure mc st := by simp [scanMeasure, hq]

/-- move_reachable (src/gc.c:380-447): a NULL root and an already-marked
root return immediately; otherwise the root is marked, moved from Active
to the head of the to-set, and the scan loop runs from it. -/
def move_reachable (data : List Obj) (mc : Nat) (st : ScanState) (root : Option Nat) : ScanState :=
  match root with
  | none => st
  | some r =>
    if unmarkedAt st.colors mc r then
      scanLoop data mc
        { colors := st.colors.set r mc, active := st.active.erase r,
          old := r :: st.old, queue := [r] }
    else st

/-- The finalize loop of baker_collect (src/gc.c:478-487): walk the
Finalizable stack in order; an entry not carrying the mark color is
finalized (first component, in invocation order), a surviving entry is
pushed onto Finalizable_Objects_Next (second component). -/
def finalize_pass (colors : List Nat) (mc : Nat) : List Nat → List Nat × List Nat
  | [] => ([], [])
  | i :: rest =>
    let (fins, nexts) := finalize_pass colors mc rest
    if colors[i]? = some mc then (fins, i :: nexts) else (i :: fins, nexts)

/-- Global collector state (src/gc.c:296-310, 509-510).  `data` is the
object store (payloads are immutable during collection); `colors` is the
parallel color-byte array; `nextFree` models Next_Free_Object as the
next-chain suffix of Active starting at the pointed cell (after a
collection or an extension the chain is the whole Active list);
`roots` holds the values currently referenced through the Root_Objects
stack (`none` for a NULL reference), in stack order bottom first, which
is the order the collector visits them; `finLog` records every
finalize_object invocation in order. -/
structure GCState where
  data : List Obj
  colors : List Nat
  active : List Nat
  old : List Nat
  nextFree : List Nat
  roots : List (Option Nat)
  finalizable : List Nat
  finalizableNext : List Nat
  finLog : List Nat
  currentColor : Nat
  nextHeapExtension : Nat
  deriving DecidableEq

/-- baker_collect (src/gc.c:465-507): merge Old into Active at the tail,
advance the color, move everything reachable from the roots into Old,
finalize the unreached finalizables and swap the finalizable stacks,
advance the color again, recycle Active as the free list and return its
count. -/
def baker_collect (s : GCState) : GCState × Nat :=
  let mc := (s.currentColor + 1) % 256
  let st0 : ScanState := ⟨s.colors, s.active ++ s.old, [], []⟩
  let stF := s.roots.foldl (move_reachable s.data mc) st0
  let fp := finalize_pass stF.colors mc s.finalizable
  let s' : GCState :=
    { s with
      colors := stF.colors, active := stF.active, old := stF.old,
      finalizable := fp.2, finalizableNext := [],
      finLog := s.finLog ++ fp.1,
      currentColor := (mc + 1) % 256,
      nextFree := stF.active }
  (s', stF.active.length)

/-- extend_heap (src/gc.c:344-378): allocate `extension` raw cells
colored with the current color, thread them as a chain prepended to
Active, and point Next_Free_Object at the new head (so its next-chain is
the whole new Active list).  The C code assumes extension ≥ 2. -/
def extend_heap (s : GCState) (extension : Nat) : GCState :=
  let newIds := List.range' s.data.length extension
  { s with
    data := s.data ++ List.replicate extension Obj.raw,
    colors := s.colors ++ List.replicate extension s.currentColor,
    active := newIds ++ s.active,
    nextFree := newIds ++ s.active }

/-- Result of alloc_object: the new state and the id of the handed-out
cell, or the fatal throw_gc exit (code 2). -/
inductive AllocResult where
  | ok (s : GCState) (obj : Nat)
  | fatal (msg : String)
  deriving DecidableEq

/-- The tail of alloc_object (src/gc.c:538-547): take the cell at
Next_Free_Object, color it with the live color, push it on Finalizable
when requested, advance Next_Free_Object along the chain. -/
def alloc_from (s : GCState) (needsFinalization : Bool) : AllocResult :=
  match s.nextFree with
  | [] => .fatal "extend_heap didnt work"
  | obj :: rest =>
    .ok { s with
          colors := s.colors.set obj s.currentColor,
          finalizable := if needsFinalization then s.finalizable ++ [obj] else s.finalizable,
          nextFree := rest } obj

/-- alloc_object (src/gc.c:512-548): when Next_Free_Object is nil a
collection runs first; when it freed nothing, or the pending extension
size divided by the freed count exceeds 2, the heap is extended by the
pending size and the pending size is tripled; a still-nil
Next_Free_Object after that is fatal. -/
def alloc_object (s : GCState) (needsFinalization : Bool) : AllocResult :=
  if s.nextFree.isEmpty then
    let res := baker_collect s
    let sc := res.1
    let freed := res.2
    let sx :=
      if freed = 0 ∨ sc.nextHeapExtension / freed > 2 then
        let se := extend_heap sc sc.nextHeapExtension
        { se with nextHeapExtension := se.nextHeapExtension * 3 }
      else sc
    if sx.nextFree.isEmpty then .fatal "extend_heap didnt work"
    else alloc_from sx needsFinalization
  else alloc_from s needsFinalization

/-- A cell carries the mark color. -/
def markedAt (colors : List Nat) (mc i : Nat) : Prop := colors[i]? = some mc

instance (colors : List Nat) (mc i : Nat) : Decidable (markedAt colors mc i) := by
  unfold markedAt; infer_instance

/-- Reachability through the per-variant field scan, from cell `a`. -/
inductive Reach (data : List Obj) : Nat → Nat → Prop where
  | refl (a : Nat) : Reach data a a
  | tail {a b c : Nat} : Reach data a b → c ∈ scanFields (data.getD b .emptyList) →
      Reach data a c

/-- Reachable from some object currently referenced through Roots. -/
def RootReachable (s : GCState) (i : Nat) : Prop :=
  ∃ r, (some r) ∈ s.roots ∧ Reach s.data r i

/-- Validity of a root entry: a NULL reference or a heap cell id. -/
def rootOk (n : Nat) : Option Nat → Prop
  | none => True
  | some r => r < n

instance (n : Nat) (r : Option Nat) : Decidable (rootOk n r) := by
  cases r <;> simp [rootOk] <;> infer_instance

/-- Well-formedness of a quiescent collector state: color array parallel
to the store, field scans stay inside the store, root references point
into the store, the two heap lists partition the store, and no cell
already carries the color the next collection will mark with. -/
def GCWF (s : GCState) : Prop :=
  s.colors.length = s.data.length ∧
  (∀ i < s.data.length, ∀ f ∈ scanFields (s.data.getD i .emptyList), f < s.data.length) ∧
  (∀ r ∈ s.roots, rootOk s.data.length r) ∧
  (s.active ++ s.old).Nodup ∧
  (∀ i ∈ s.active ++ s.old, i < s.data.length) ∧
  (∀ i < s.data.length, i ∈ s.active ++ s.old) ∧
  ((s.currentColor + 1) % 256) ∉ s.colors

instance (s : GCState) : Decidable (GCWF s) := by
  unfold GCWF; infer_instance

/-!  The bytecode virtual machine (src/vm.c).  The VM runs over the same
id-indexed heap.  Heap accessors mirror the union-field accessors of
types.h (not under src/; modelled from the spec, section 3.1): each is
defined on the variant carrying the field and undefined elsewhere, where
the C would read a mis-tagged union member. -/

/-- Heap read. -/
def heapGet (h : List Obj) (i : Nat) : Option Obj := h[i]?

/-- Heap write at an existing cell. -/
def heapSet (h : List Obj) (i : Nat) (o : Obj) : List Obj := h.set i o

/-- Allocate a fresh cell (cons/make_vector allocate from the GC heap;
in the VM model a fresh cell is appended, so its id is the old length). -/
def heapAlloc (h : List Obj) (o : Obj) : List Obj × Nat := (h ++ [o], h.length)

/-- Modelled from the spec: `car` of a PAIR (types.c is not under src). -/
def carF (h : List Obj) (i : Nat) : Option Nat :=
  match heapGet h i with
  | some (.pair a _) => some a
  | _ => none

/-- Modelled from the spec: `cdr` of a PAIR. -/
def cdrF (h : List Obj) (i : Nat) : Option Nat :=
  match heapGet h i with
  | some (.pair _ d) => some d
  | _ => none

/-- Modelled from the spec: `set_car` on a PAIR. -/
def setCarF (h : List Obj) (i v : Nat) : Option (List Obj) :=
  match heapGet h i with
  | some (.pair _ d) => some (heapSet h i (.pair v d))
  | _ => none

/-- Modelled from the spec: `set_cdr` on a PAIR. -/
def setCdrF (h : List Obj) (i v : Nat) : Option (List Obj) :=
  match heapGet h i with
  | some (.pair a _) => some (heapSet h i (.pair a v))
  | _ => none

/-- Modelled from the spec: LONG of a FIXNUM. -/
def longF (h : List Obj) (i : Nat) : Option Int :=
  match heapGet h i with
  | some (.fixnum v) => some v
  | _ => none

/-- Modelled from the spec: CHAR of a CHARACTER. -/
def charF (h : List Obj) (i : Nat) : Option Nat :=
  match heapGet h i with
  | some (.character c) => some c
  | _ => none

/-- Modelled from the spec: VSIZE of a VECTOR. -/
def vsizeF (h : List Obj) (v : Nat) : Option Nat :=
  match heapGet h v with
  | some (.vec es) => some es.length
  | _ => none

/-- Modelled from the spec: VARRAY(v)[i] of a VECTOR. -/
def vrefF (h : List Obj) (v i : Nat) : Option Nat :=
  match heapGet h v with
  | some (.vec es) => es[i]?
  | _ => none

/-- Modelled from the spec: VARRAY(v)[i] = val on a VECTOR, in bounds. -/
def vsetF (h : List Obj) (v i val : Nat) : Option (List Obj) :=
  match heapGet h v with
  | some (.vec es) =>
    if i < es.length then some (heapSet h v (.vec (es.set i val))) else none
  | _ => none

/-- make_vector(the_empty_list, n): a fresh VECTOR of n empty slots. -/
def makeVectorF (h : List Obj) (emptyId n : Nat) : List Obj × Nat :=
  heapAlloc h (.vec (List.replicate n emptyId))

/-- cons: a fresh PAIR. -/
def consF (h : List Obj) (a d : Nat) : List Obj × Nat := heapAlloc h (.pair a d)

/-- vector_pop (src/vm.c:128-132) as used through the VPOP macro: read
the slot below `top`, overwrite it with the_empty_list, and (at the call
site) decrement stack_top.  Returns the popped id and the new heap. -/
def vector_pop (h : List Obj) (stackId emptyId top : Nat) : Option (Nat × List Obj) :=
  match heapGet h stackId with
  | some (.vec es) =>
    if 0 < top ∧ top ≤ es.length then
      some (es.getD (top - 1) 0, heapSet h stackId (.vec (es.set (top - 1) emptyId)))
    else none
  | _ => none

/-- OPCODE(instr) decoded to its CHAR value: CAR(instr) is a CHARACTER. -/
def opcodeOf (h : List Obj) (instr : Nat) : Option Nat :=
  (carF h instr).bind (charF h)

/-- ARG1(instr) = CAR(CDR(instr)). -/
def arg1Of (h : List Obj) (instr : Nat) : Option Nat :=
  (cdrF h instr).bind (carF h)

/-- ARG2(instr) = CAR(CDR(CDR(instr))). -/
def arg2Of (h : List Obj) (instr : Nat) : Option Nat :=
  (cdrF h instr).bind (fun a => (cdrF h a).bind (carF h))

/-- The registers of vm_execute (src/vm.c:177-199) that the modelled
dispatch paths touch: the heap, the function register, the environment,
the value-stack vector id and stack_top, n_args and pc.  `emptyId` is
the id of the the_empty_list singleton. -/
structure VMState where
  heap : List Obj
  fn : Nat
  env : Nat
  stack : Nat
  stackTop : Nat
  nArgs : Int
  pc : Nat
  emptyId : Nat
  deriving DecidableEq

/-- Outcome of one dispatch of the vm_execute loop.  `next` falls through
to `goto vm_begin`; `enter` is `goto vm_fn_begin` (a call transfer);
`vmError` is a failed VM_ASSERT (src/vm.c:106-112): the message goes to
stderr and vm_execute RETURNS the error symbol through VM_RETURN — the
process keeps running; `exited` would be a process exit, which no path
of the vm_execute dispatch produces; `external` marks paths delegated to
collaborators outside src (globals, primitives, the apply splat) or
opcodes this development does not need; `stuck` marks heap shapes on
which the C would read a mis-tagged union field. -/
inductive StepOut where
  | next (s : VMState)
  | enter (s : VMState)
  | vmError (msg : String)
  | exited (code : Nat)
  | external (tag : String)
  | stuck
  deriving DecidableEq

/-- Whether an outcome terminates the process. -/
def isProcessExit : StepOut → Bool
  | .exited _ => true
  | _ => false

/-- The _args_ case (src/vm.c:222-245): require exactly ARG1 arguments,
grow the top frame when smaller, then pop the arguments into slots
num_args-1 .. 0 of the (re-read) top frame. -/
def popRequiredArgs (emptyId stackId frameId : Nat) :
    Nat → List Obj → Nat → Option (List Obj × Nat)
  | 0, h, top => some (h, top)
  | k + 1, h, top =>
    match vector_pop h stackId emptyId top with
    | some (v, h1) =>
      match vsetF h1 frameId k v with
      | some h2 => popRequiredArgs emptyId stackId frameId k h2 (top - 1)
      | none => none
    | none => none

/-- The excess-argument loop of _argsdot_ (src/vm.c:263-267): pop the
top argument and cons it onto the list accumulating in frame slot
`slot`, m times. -/
def popDottedArgs (emptyId stackId frameId slot : Nat) :
    Nat → List Obj → Nat → Option (List Obj × Nat)
  | 0, h, top => some (h, top)
  | m + 1, h, top =>
    match vector_pop h stackId emptyId top with
    | some (v, h1) =>
      match vrefF h1 frameId slot with
      | some cur =>
        let hc := consF h1 v cur
        match vsetF hc.1 frameId slot hc.2 with
        | some h3 => popDottedArgs emptyId stackId frameId slot m h3 (top - 1)
        | none => none
      | none => none
    | none => none

/-- The _args_ case of vm_execute (src/vm.c:222-245). -/
def stepArgs (s : VMState) (instr : Nat) : StepOut :=
  match arg1Of s.heap instr with
  | none => .stuck
  | some a1 =>
    match longF s.heap a1 with
    | none => .stuck
    | some na =>
      if s.nArgs ≠ na then .vmError "wrong number of args. expected %ld, got %ld\n"
      else
        match carF s.heap s.env with
        | none => .stuck
        | some frame0 =>
          match vsizeF s.heap frame0 with
          | none => .stuck
          | some fsize =>
            let hres : Option (List Obj) :=
              if na > (fsize : Int) then
                let mv := makeVectorF s.heap s.emptyId na.toNat
                setCarF mv.1 s.env mv.2
              else some s.heap
            match hres with
            | none => .stuck
            | some h1 =>
              match carF h1 s.env with
              | none => .stuck
              | some frame =>
                match popRequiredArgs s.emptyId s.stack frame na.toNat h1 s.stackTop with
                | none => .stuck
                | some (h2, top2) => .next { s with heap := h2, stackTop := top2 }

/-- The _argsdot_ case of vm_execute (src/vm.c:246-277). -/
def stepArgsdot (s : VMState) (instr : Nat) : StepOut :=
  match arg1Of s.heap instr with
  | none => .stuck
  | some a1 =>
    match longF s.heap a1 with
    | none => .stuck
    | some req =>
      if s.nArgs < req then .vmError "wrong number of args"
      else
        let arraySize := req + 1
        match carF s.heap s.env with
        | none => .stuck
        | some frame0 =>
          match vsizeF s.heap frame0 with
          | none => .stuck
          | some fsize =>
            let hres : Option (List Obj) :=
              if arraySize > (fsize : Int) then
                let mv := makeVectorF s.heap s.emptyId arraySize.toNat
                setCarF mv.1 s.env mv.2
              else some s.heap
            match hres with
            | none => .stuck
            | some h1 =>
              match carF h1 s.env with
              | none => .stuck
              | some frame =>
                match vsetF h1 frame (arraySize.toNat - 1) s.emptyId with
                | none => .stuck
                | some h2 =>
                  match popDottedArgs s.emptyId s.stack frame (arraySize.toNat - 1)
                      (s.nArgs - req).toNat h2 s.stackTop with
                  | none => .stuck
                  | some (h3, top3) =>
                    match popRequiredArgs s.emptyId s.stack frame req.toNat h3 top3 with
                    | none => .stuck
                    | some (h4, top4) => .next { s with heap := h4, stackTop := top4 }

/-- META_PROC unwrapping shared by _callj_ and _fcallj_. -/
def unwrapMeta (h : List Obj) (t : Nat) : Nat :=
  match heapGet h t with
  | some (.metaProc p _) => p
  | _ => t

/-- The compiled-procedure path of _fcallj_ (src/vm.c:315-328): rebind
fn, reset pc and n_args, then build a FRESH environment: a new frame of
n_args + 1 empty slots consed onto the callee captured env. -/
def fcalljEnter (h : List Obj) (s : VMState) (t : Nat) (na : Int) (cenv top1 : Nat) : StepOut :=
  let mv := makeVectorF h s.emptyId (na + 1).toNat
  let ce := consF mv.1 mv.2 cenv
  .enter { s with heap := ce.1, fn := t, pc := 0, nArgs := na, env := ce.2, stackTop := top1 }

/-- The _fcallj_ case of vm_execute (src/vm.c:305-354).  The primitive
path calls a native collaborator and is left external. -/
def stepFcallj (s : VMState) (instr : Nat) : StepOut :=
  match vector_pop s.heap s.stack s.emptyId s.stackTop with
  | none => .stuck
  | some (t0, h1) =>
    let top1 := s.stackTop - 1
    let t := unwrapMeta h1 t0
    match arg1Of h1 instr with
    | none => .stuck
    | some a1 =>
      match longF h1 a1 with
      | none => .stuck
      | some na =>
        match heapGet h1 t with
        | some (.compiledProc _ cenv) => fcalljEnter h1 s t na cenv top1
        | some (.compiledSynProc _ cenv) => fcalljEnter h1 s t na cenv top1
        | some .primitiveProc => .external "primitive call"
        | _ => .vmError "dont know how to invoke"

/-- The compiled-procedure path of _callj_ (src/vm.c:387-397): rebind
fn, reset pc and n_args, and REUSE the env cons of the caller by setting
its cdr to the callee captured env; the car (the current top frame) is
left for _args_ to overwrite. -/
def calljEnter (h : List Obj) (s : VMState) (t : Nat) (na : Int) (cenv top1 : Nat) : StepOut :=
  match setCdrF h s.env cenv with
  | none => .stuck
  | some h2 => .enter { s with heap := h2, fn := t, pc := 0, nArgs := na, stackTop := top1 }

/-- The _callj_ case of vm_execute (src/vm.c:356-423).  The apply splat
(args_for_call = -1) pushes through VPUSH and is left external, as is
the primitive path. -/
def stepCallj (s : VMState) (instr : Nat) : StepOut :=
  match vector_pop s.heap s.stack s.emptyId s.stackTop with
  | none => .stuck
  | some (t0, h1) =>
    let top1 := s.stackTop - 1
    let t := unwrapMeta h1 t0
    match arg1Of h1 instr with
    | none => .stuck
    | some a1 =>
      match longF h1 a1 with
      | none => .stuck
      | some na =>
        if na = -1 then .external "apply splat"
        else
          match heapGet h1 t with
          | some (.compiledProc _ cenv) => calljEnter h1 s t na cenv top1
          | some (.compiledSynProc _ cenv) => calljEnter h1 s t na cenv top1
          | some .primitiveProc => .external "primitive call"
          | _ => .vmError "dont know how to invoke"

/-- The _setcc_ case of vm_execute (src/vm.c:463-472), verbatim: pop
new_stack, pop new_stack_top, then `stack = car(stack)` — the C takes
the car of the LIVE stack vector and never uses the popped new_stack —
and `stack_top = LONG(new_stack_top)`. -/
def stepSetcc (s : VMState) : StepOut :=
  match vector_pop s.heap s.stack s.emptyId s.stackTop with
  | none => .stuck
  | some (_newStack, h1) =>
    match vector_pop h1 s.stack s.emptyId (s.stackTop - 1) with
    | none => .stuck
    | some (newStackTop, h2) =>
      match carF h2 s.stack with
      | none => .stuck
      | some st2 =>
        match longF h2 newStackTop with
        | none => .stuck
        | some t => .next { s with heap := h2, stack := st2, stackTop := t.toNat }

/-- Opcode dispatch (src/vm.c:221-525).  The opcode numbering follows the
opcode_table enum: args=0, argsdot=1, return=2, const=3, fn=4, fjump=5,
tjump=6, jump=7, fcallj=8, callj=9, lvar=10, save=11, gvar=12, lset=13,
gset=14, setcc=15, cc=16, pop=17, INVALID_BYTECODE=18.  A code outside
the enum falls into the default case: "strange opcode".  Known opcodes
not needed by this development are left external. -/
def dispatchOp (s : VMState) (instr op : Nat) : StepOut :=
  if op = 0 then stepArgs s instr
  else if op = 1 then stepArgsdot s instr
  else if op = 8 then stepFcallj s instr
  else if op = 9 then stepCallj s instr
  else if op = 15 then stepSetcc s
  else if op < 18 then .external "opcode not modelled"
  else .vmError "strange opcode"

/-- One iteration of the vm_execute loop from vm_fn_begin/vm_begin
(src/vm.c:200-527): check fn is a compiled procedure, load its bytecode
vector, fail when pc ran past the end, otherwise fetch codes[pc],
advance pc, decode the opcode character and dispatch.  (The C caches the
code array at vm_fn_begin; fn changes only through vm_fn_begin, so
re-reading it each iteration is equivalent.) -/
def vm_execute_step (s : VMState) : StepOut :=
  match heapGet s.heap s.fn with
  | some (.compiledProc bc _) => vmFetch s bc
  | some (.compiledSynProc bc _) => vmFetch s bc
  | _ => .vmError "object is not compiled-procedure"
where
  vmFetch (s : VMState) (bc : Nat) : StepOut :=
    match heapGet s.heap bc with
    | some (.vec codes) =>
      if s.pc ≥ codes.length then .vmError "pc flew off the end of memory"
      else
        match opcodeOf s.heap (codes.getD s.pc 0) with
        | none => .stuck
        | some op => dispatchOp { s with pc := s.pc + 1 } (codes.getD s.pc 0) op
    | _ => .stuck

/-!  Concrete machine states used to exercise the theorems. -/

/-- A VM state about to dispatch _setcc_, exactly as the cc_bytecode
arranges it (src/vm.c:569-578): the live stack vector (id 3) holds the
captured stack-top fixnum (id 2) below and the captured stack snapshot
vector (id 1) on top. -/
def c1Heap : List Obj :=
  [ .emptyList,          -- 0: the_empty_list
    .vec [0, 0],         -- 1: captured stack snapshot (a VECTOR)
    .fixnum 0,           -- 2: captured stack-top fixnum
    .vec [2, 1],         -- 3: live value stack
    .vec [5],            -- 4: bytecode vector
    .pair 6 7,           -- 5: the setcc instruction
    .character 15,       -- 6: opcode character _setcc_
    .pair 0 8,           -- 7: (arg1 . rest)
    .pair 0 0,           -- 8: (arg2 . nil)
    .compiledProc 4 0 ]  -- 9: the running fn

/-- The registers matching `c1Heap`. -/
def c1State : VMState :=
  { heap := c1Heap, fn := 9, env := 0, stack := 3, stackTop := 2,
    nArgs := 1, pc := 0, emptyId := 0 }

/-- A heap packing one scenario per malformed-bytecode condition; the
states below differ only in which fn runs. -/
def c2Heap : List Obj :=
  [ .emptyList,          -- 0
    .vec [],             -- 1: empty bytecode vector
    .compiledProc 1 0,   -- 2: fn whose pc is already past the end
    .vec [5],            -- 3: bytecode with an unknown opcode
    .compiledProc 3 0,   -- 4
    .pair 6 7,           -- 5: instruction with opcode character 99
    .character 99,       -- 6
    .pair 0 0,           -- 7
    .vec [10],           -- 8: bytecode with (args 5)
    .compiledProc 8 0,   -- 9
    .pair 11 12,         -- 10
    .character 0,        -- 11: _args_
    .pair 13 7,          -- 12
    .fixnum 5,           -- 13
    .vec [16],           -- 14: bytecode with (argsdot 5)
    .compiledProc 14 0,  -- 15
    .pair 17 12,         -- 16
    .character 1,        -- 17: _argsdot_
    .vec [20],           -- 18: bytecode with (callj 0)
    .compiledProc 18 0,  -- 19
    .pair 21 22,         -- 20
    .character 9,        -- 21: _callj_
    .pair 23 7,          -- 22
    .fixnum 0,           -- 23
    .vec [25],           -- 24: a stack whose top is not callable
    .fixnum 42,          -- 25
    .vec [28],           -- 26: bytecode with (fcallj 0)
    .compiledProc 26 0,  -- 27
    .pair 29 22 ]        -- 28
/-- Continuation of `c2Heap` (the fcallj opcode character). -/
def c2HeapFull : List Obj := c2Heap ++ [.character 8]  -- 29

/-- Base registers over `c2HeapFull`. -/
def c2Base : VMState :=
  { heap := c2HeapFull, fn := 2, env := 0, stack := 24, stackTop := 0,
    nArgs := 0, pc := 0, emptyId := 0 }

/-- pc already at the end of an empty bytecode vector. -/
def c2sPc : VMState := c2Base

/-- About to fetch an instruction with opcode character 99. -/
def c2sOp : VMState := { c2Base with fn := 4 }

/-- _args_ expecting 5 arguments while n_args = 3. -/
def c2sArgs : VMState := { c2Base with fn := 9, nArgs := 3 }

/-- _argsdot_ requiring 5 arguments while n_args = 3. -/
def c2sArgsdot : VMState := { c2Base with fn := 15, nArgs := 3 }

/-- _callj_ whose popped target is a fixnum. -/
def c2sCallj : VMState := { c2Base with fn := 19, stackTop := 1 }

/-- _fcallj_ whose popped target is a fixnum. -/
def c2sFcallj : VMState := { c2Base with fn := 27, stackTop := 1 }

/-- A VM state about to dispatch (callj 2) on a compiled callee. -/
def c6Heap : List Obj :=
  [ .emptyList,          -- 0
    .vec [0],            -- 1: caller top frame
    .pair 1 0,           -- 2: caller env cons (frame . rest)
    .vec [8],            -- 3: caller bytecode
    .compiledProc 5 7,   -- 4: the callee (bytecode 5, captured env 7)
    .vec [],             -- 5: callee bytecode
    .fixnum 2,           -- 6: the operand n = 2
    .pair 0 0,           -- 7: callee captured env
    .pair 9 10,          -- 8: the callj instruction
    .character 9,        -- 9: opcode _callj_
    .pair 6 11,          -- 10
    .pair 0 0,           -- 11
    .vec [13, 4],        -- 12: the stack, callee on top
    .fixnum 99,          -- 13
    .compiledProc 3 0 ]  -- 14: the caller fn

/-- Registers for the callj scenario. -/
def c6State : VMState :=
  { heap := c6Heap, fn := 14, env := 2, stack := 12, stackTop := 2,
    nArgs := 0, pc := 0, emptyId := 0 }

/-- The same scenario with an (fcallj 2) instruction instead. -/
def c6fHeap : List Obj := c6Heap ++ [.pair 16 10, .character 8, .vec [15], .compiledProc 17 0]
  -- 15: the fcallj instruction, 16: opcode _fcallj_, 17: caller bytecode, 18: caller fn

/-- Registers for the fcallj scenario. -/
def c6fState : VMState :=
  { heap := c6fHeap, fn := 18, env := 2, stack := 12, stackTop := 2,
    nArgs := 0, pc := 0, emptyId := 0 }

/-- A VM state about to dispatch (argsdot 1) with 3 arguments on the
stack. -/
def c8Heap : List Obj :=
  [ .emptyList,          -- 0
    .vec [0, 0],         -- 1: top frame, 2 slots
    .pair 1 0,           -- 2: env cons
    .vec [5],            -- 3: bytecode
    .compiledProc 3 0,   -- 4: fn
    .pair 6 7,           -- 5: the argsdot instruction
    .character 1,        -- 6: opcode _argsdot_
    .pair 8 9,           -- 7
    .fixnum 1,           -- 8: required count n = 1
    .pair 0 0,           -- 9
    .vec [11, 12, 13],   -- 10: the stack: args left to right
    .fixnum 100,         -- 11
    .fixnum 200,         -- 12
    .fixnum 300 ]        -- 13

/-- Registers for the argsdot scenario. -/
def c8State : VMState :=
  { heap := c8Heap, fn := 4, env := 2, stack := 10, stackTop := 3,
    nArgs := 3, pc := 0, emptyId := 0 }

/-- A small well-formed collector state: a pair (id 0) rooted and
referencing ids 1 and 2; ids 1 and 2 are on the finalizable stack. -/
def gcW : GCState :=
  { data := [.pair 1 2, .fixnum 7, .emptyList],
    colors := [5, 5, 5],
    active := [0, 1, 2],
    old := [],
    nextFree := [0, 1, 2],
    roots := [some 0],
    finalizable := [1, 2],
    finalizableNext := [],
    finLog := [],
    currentColor := 0,
    nextHeapExtension := 1000 }

/-- An empty collector state whose free chain is exhausted: allocation
must collect (freeing nothing) and then extend. -/
def gcA : GCState :=
  { data := [], colors := [], active := [], old := [], nextFree := [],
    roots := [], finalizable := [], finalizableNext := [], finLog := [],
    currentColor := 0, nextHeapExtension := 4 }

/-- A proper list in the heap: a cons chain from cell `i` whose element
ids, in order, are `L`, ending at a THE_EMPTY_LIST cell. -/
inductive ProperList (h : List Obj) : Nat → List Nat → Prop where
  | nil {i : Nat} : heapGet h i = some .emptyList → ProperList h i []
  | cons {i a d : Nat} {L : List Nat} : heapGet h i = some (.pair a d) →
      ProperList h d L → ProperList h i (a :: L)

/-!  Theorems.  First the Roots-stack discipline (claims C9 and C10). -/

/-- The scan-and-shift of stack_set_pop deletes exactly the topmost
occurrence of the value below the old top. -/
theorem scanShift_eq (value : Nat) :
    ∀ (xs : List Nat) (last : Nat),
      scanShift last value xs =
        if value ∈ xs then some (last :: xs.erase value) else none := by
  intro xs
  induction xs with
  | nil => intro last; simp [scanShift]
  | cons x xs ih =>
    intro last
    by_cases hx : x = value
    · subst hx
      simp [scanShift, List.erase_cons_head]
    · have hne : (x == value) = false := by simpa using hx
      have hmem : (value ∈ x :: xs) = (value ∈ xs) := by
        simp [List.mem_cons]
        intro hvx
        exact absurd hvx.symm hx
      rw [scanShift, if_neg hx, ih x]
      by_cases hv : value ∈ xs
      · simp [hv, hmem, List.erase_cons_tail, hne]
      · simp [hv, hmem]

/-- stack_set_pop computes: delete the topmost occurrence when present,
report failure when absent. -/
theorem stack_set_pop_eq (s : List Nat) (value : Nat) :
    stack_set_pop s value = if value ∈ s then some (s.erase value) else none := by
  cases s with
  | nil => simp [stack_set_pop]
  | cons t rest =>
    by_cases ht : t = value
    · subst ht
      simp [stack_set_pop, List.erase_cons_head]
    · have hne : (t == value) = false := by simpa using ht
      have hmem : (value ∈ t :: rest) = (value ∈ rest) := by
        simp [List.mem_cons]
        intro hvx
        exact absurd hvx.symm ht
      rw [stack_set_pop.eq_def]
      simp only [if_neg ht, scanShift_eq value rest t]
      by_cases hv : value ∈ rest
      · simp [hv, hmem, List.erase_cons_tail, hne]
      · simp [hv, hmem]

/-- C9: pop_root succeeds exactly when the address occurs in the Roots
stack, removing one occurrence of it (the counts of every other entry
are unchanged) and shrinking the stack height by one; when the address
is absent, pop_root is fatal (throw_gc, process exit). -/
theorem pop_root_spec (s : List Nat) (v : Nat) :
    (v ∈ s → ∃ s', pop_root s v = .ok s' ∧ s'.length + 1 = s.length ∧
        s'.count v + 1 = s.count v ∧ ∀ w, w ≠ v → s'.count w = s.count w) ∧
    (v ∉ s → pop_root s v = .fatal) := by
  constructor
  · intro hv
    refine ⟨s.erase v, ?_, ?_, ?_, ?_⟩
    · simp [pop_root, stack_set_pop_eq, hv]
    · have := List.length_erase_of_mem hv
      have hpos := List.length_pos_of_mem hv
      omega
    · have h1 := List.count_erase_self v s
      have h2 : 0 < s.count v := List.count_pos_iff_mem.mpr hv
      omega
    · intro w hw
      exact List.count_erase_of_ne hw s
  · intro hv
    simp [pop_root, stack_set_pop_eq, hv]

/-- Witness for C9 at the stack [5, 3, 5] (top first) popping 3. -/
theorem pop_root_spec_witness :
    (3 : Nat) ∈ [5, 3, 5] ∧
      (∃ s', pop_root [5, 3, 5] 3 = .ok s' ∧ s'.length + 1 = ([5, 3, 5] : List Nat).length ∧
        s'.count 3 + 1 = ([5, 3, 5] : List Nat).count 3 ∧
        ∀ w, w ≠ 3 → s'.count w = ([5, 3, 5] : List Nat).count w) :=
  ⟨by decide, (pop_root_spec [5, 3, 5] 3).1 (by decide)⟩

/-- C10: an out-of-order pop (value present but not on top) returns the
stack with exactly that single topmost occurrence deleted: every entry
above it shifts down one slot and the relative order of the remaining
entries is preserved (the result is List.erase of the top-first stack). -/
theorem stack_set_pop_out_of_order (s : List Nat) (v : Nat)
    (h1 : v ∈ s) (h2 : s.head? ≠ some v) :
    stack_set_pop s v = some (s.erase v) := by
  rw [stack_set_pop_eq, if_pos h1]

/-- Witness for C10 at the stack [7, 4, 9] (top first) popping 4. -/
theorem stack_set_pop_out_of_order_witness :
    (4 : Nat) ∈ [7, 4, 9] ∧ ([7, 4, 9] : List Nat).head? ≠ some 4 ∧
      stack_set_pop [7, 4, 9] 4 = some (([7, 4, 9] : List Nat).erase 4) :=
  ⟨by decide, by decide, stack_set_pop_out_of_order [7, 4, 9] 4 (by decide) (by decide)⟩

/-!  Claim C1: what _setcc_ actually does.  The C pops the captured
stack into new_stack and the captured stack-top, but then executes
`stack = car(stack)` on the live stack VECTOR — new_stack is dead.  On
the state arranged by cc_bytecode this is a mis-tagged union read. -/

/-- C1 evidence: on a state arranged exactly as cc_bytecode arranges it,
the first value popped by _setcc_ is the captured stack snapshot (id 1),
yet the dispatch gets stuck taking car of the live stack vector instead
of installing the snapshot. -/
theorem setcc_failing_input :
    (vector_pop c1State.heap c1State.stack c1State.emptyId c1State.stackTop).map Prod.fst
        = some 1 ∧
      vm_execute_step c1State = .stuck := by
  constructor
  · decide
  · decide

/-!  Claim C2: malformed bytecode does NOT terminate the process; every
VM_ASSERT prints its message and makes vm_execute return the error
symbol (VM_RETURN), which the caller receives as an ordinary value. -/

/-- C2 counterexample: dispatching an unknown opcode produces the
"strange opcode" VM_ASSERT return, and the process is not terminated. -/
theorem vm_malformed_counterexample :
    vm_execute_step c2sOp = .vmError "strange opcode" ∧
      isProcessExit (vm_execute_step c2sOp) = false := by
  constructor
  · decide
  · decide

/-- Helper: one fetch-decode-dispatch unfolding of vm_execute_step. -/
theorem vm_step_fetch (s : VMState) (bc cenv op : Nat) (codes : List Nat)
    (hfn : heapGet s.heap s.fn = some (.compiledProc bc cenv))
    (hbc : heapGet s.heap bc = some (.vec codes))
    (hpc : s.pc < codes.length)
    (hop : opcodeOf s.heap (codes.getD s.pc 0) = some op) :
    vm_execute_step s = dispatchOp { s with pc := s.pc + 1 } (codes.getD s.pc 0) op := by
  simp only [vm_execute_step, hfn, vm_execute_step.vmFetch, hbc]
  rw [if_neg (by omega)]
  simp only [hop]

/-- Helper: an in-bounds vector_pop computes. -/
theorem vector_pop_eq (h : List Obj) (stackId emptyId top : Nat) (es : List Nat)
    (hs : heapGet h stackId = some (.vec es)) (h0 : 0 < top) (hle : top ≤ es.length) :
    vector_pop h stackId emptyId top =
      some (es.getD (top - 1) 0, heapSet h stackId (.vec (es.set (top - 1) emptyId))) := by
  simp only [vector_pop, hs]
  rw [if_pos ⟨h0, hle⟩]

/-- C2 (amended): each malformed-bytecode condition — pc at or past the
end of the bytecode vector, unknown opcode, argument-count mismatch at
args/argsdot, and a call target that is not callable at callj/fcallj —
prints its VM_ASSERT diagnostic and makes vm_execute RETURN the error
symbol to its caller; none of them terminates the process. -/
theorem vm_malformed_error_return :
    (∀ (s : VMState) (bc cenv : Nat) (codes : List Nat),
        heapGet s.heap s.fn = some (.compiledProc bc cenv) →
        heapGet s.heap bc = some (.vec codes) →
        s.pc ≥ codes.length →
        vm_execute_step s = .vmError "pc flew off the end of memory" ∧
          isProcessExit (vm_execute_step s) = false) ∧
    (∀ (s : VMState) (bc cenv op : Nat) (codes : List Nat),
        heapGet s.heap s.fn = some (.compiledProc bc cenv) →
        heapGet s.heap bc = some (.vec codes) →
        s.pc < codes.length →
        opcodeOf s.heap (codes.getD s.pc 0) = some op →
        18 ≤ op →
        vm_execute_step s = .vmError "strange opcode" ∧
          isProcessExit (vm_execute_step s) = false) ∧
    (∀ (s : VMState) (bc cenv a1 : Nat) (codes : List Nat) (na : Int),
        heapGet s.heap s.fn = some (.compiledProc bc cenv) →
        heapGet s.heap bc = some (.vec codes) →
        s.pc < codes.length →
        opcodeOf s.heap (codes.getD s.pc 0) = some 0 →
        arg1Of s.heap (codes.getD s.pc 0) = some a1 →
        longF s.heap a1 = some na →
        s.nArgs ≠ na →
        vm_execute_step s = .vmError "wrong number of args. expected %ld, got %ld\n" ∧
          isProcessExit (vm_execute_step s) = false) ∧
    (∀ (s : VMState) (bc cenv a1 : Nat) (codes : List Nat) (na : Int),
        heapGet s.heap s.fn = some (.compiledProc bc cenv) →
        heapGet s.heap bc = some (.vec codes) →
        s.pc < codes.length →
        opcodeOf s.heap (codes.getD s.pc 0) = some 1 →
        arg1Of s.heap (codes.getD s.pc 0) = some a1 →
        longF s.heap a1 = some na →
        s.nArgs < na →
        vm_execute_step s = .vmError "wrong number of args" ∧
          isProcessExit (vm_execute_step s) = false) ∧
    (∀ (s : VMState) (bc cenv a1 t : Nat) (codes es : List Nat) (na : Int)
        (o : Obj) (h1 : List Obj),
        heapGet s.heap s.fn = some (.compiledProc bc cenv) →
        heapGet s.heap bc = some (.vec codes) →
        s.pc < codes.length →
        opcodeOf s.heap (codes.getD s.pc 0) = some 9 →
        heapGet s.heap s.stack = some (.vec es) →
        0 < s.stackTop → s.stackTop ≤ es.length →
        h1 = heapSet s.heap s.stack (.vec (es.set (s.stackTop - 1) s.emptyId)) →
        t = unwrapMeta h1 (es.getD (s.stackTop - 1) 0) →
        arg1Of h1 (codes.getD s.pc 0) = some a1 →
        longF h1 a1 = some na →
        na ≠ -1 →
        heapGet h1 t = some o →
        (∀ x y, o ≠ .compiledProc x y) →
        (∀ x y, o ≠ .compiledSynProc x y) →
        o ≠ .primitiveProc →
        vm_execute_step s = .vmError "dont know how to invoke" ∧
          isProcessExit (vm_execute_step s) = false) ∧
    (∀ (s : VMState) (bc cenv a1 t : Nat) (codes es : List Nat) (na : Int)
        (o : Obj) (h1 : List Obj),
        heapGet s.heap s.fn = some (.compiledProc bc cenv) →
        heapGet s.heap bc = some (.vec codes) →
        s.pc < codes.length →
        opcodeOf s.heap (codes.getD s.pc 0) = some 8 →
        heapGet s.heap s.stack = some (.vec es) →
        0 < s.stackTop → s.stackTop ≤ es.length →
        h1 = heapSet s.heap s.stack (.vec (es.set (s.stackTop - 1) s.emptyId)) →
        t = unwrapMeta h1 (es.getD (s.stackTop - 1) 0) →
        arg1Of h1 (codes.getD s.pc 0) = some a1 →
        longF h1 a1 = some na →
        heapGet h1 t = some o →
        (∀ x y, o ≠ .compiledProc x y) →
        (∀ x y, o ≠ .compiledSynProc x y) →
        o ≠ .primitiveProc →
        vm_execute_step s = .vmError "dont know how to invoke" ∧
          isProcessExit (vm_execute_step s) = false) := by
  refine ⟨?_, ?_, ?_, ?_, ?_, ?_⟩
  · intro s bc cenv codes hfn hbc hpc
    have : vm_execute_step s = .vmError "pc flew off the end of memory" := by
      simp only [vm_execute_step, hfn, vm_execute_step.vmFetch, hbc]
      rw [if_pos hpc]
    exact ⟨this, by rw [this]; rfl⟩
  · intro s bc cenv op codes hfn hbc hpc hop h18
    have : vm_execute_step s = .vmError "strange opcode" := by
      rw [vm_step_fetch s bc cenv op codes hfn hbc hpc hop]
      rw [dispatchOp]
      rw [if_neg (by omega), if_neg (by omega), if_neg (by omega), if_neg (by omega),
        if_neg (by omega), if_neg (by omega)]
    exact ⟨this, by rw [this]; rfl⟩
  · intro s bc cenv a1 codes na hfn hbc hpc hop harg hlong hne
    have : vm_execute_step s = .vmError "wrong number of args. expected %ld, got %ld\n" := by
      rw [vm_step_fetch s bc cenv 0 codes hfn hbc hpc hop]
      rw [dispatchOp, if_pos rfl, stepArgs]
      simp only [harg, hlong]
      rw [if_pos hne]
    exact ⟨this, by rw [this]; rfl⟩
  · intro s bc cenv a1 codes na hfn hbc hpc hop harg hlong hlt
    have : vm_execute_step s = .vmError "wrong number of args" := by
      rw [vm_step_fetch s bc cenv 1 codes hfn hbc hpc hop]
      rw [dispatchOp, if_neg (by omega), if_pos rfl, stepArgsdot]
      simp only [harg, hlong]
      rw [if_pos hlt]
    exact ⟨this, by rw [this]; rfl⟩
  · intro s bc cenv a1 t codes es na o h1 hfn hbc hpc hop hst h0 hle hh1 ht harg hlong hm1 hto hnc hns hnp
    have hpop := vector_pop_eq s.heap s.stack s.emptyId s.stackTop es hst h0 hle
    have : vm_execute_step s = .vmError "dont know how to invoke" := by
      rw [vm_step_fetch s bc cenv 9 codes hfn hbc hpc hop]
      simp only [dispatchOp, stepCallj, hpop, ← hh1, ← ht, harg, hlong]
      rw [if_neg hm1, hto]
      cases o <;>
        first
          | rfl
          | exact absurd rfl (hnc _ _)
          | exact absurd rfl (hns _ _)
          | exact absurd rfl hnp
    exact ⟨this, by rw [this]; rfl⟩
  · intro s bc cenv a1 t codes es na o h1 hfn hbc hpc hop hst h0 hle hh1 ht harg hlong hto hnc hns hnp
    have hpop := vector_pop_eq s.heap s.stack s.emptyId s.stackTop es hst h0 hle
    have : vm_execute_step s = .vmError "dont know how to invoke" := by
      rw [vm_step_fetch s bc cenv 8 codes hfn hbc hpc hop]
      simp only [dispatchOp, stepFcallj, hpop, ← hh1, ← ht, harg, hlong]
      rw [hto]
      cases o <;>
        first
          | rfl
          | exact absurd rfl (hnc _ _)
          | exact absurd rfl (hns _ _)
          | exact absurd rfl hnp
    exact ⟨this, by rw [this]; rfl⟩

/-- Witness for C2 (amended) at the six concrete states above. -/
theorem vm_malformed_error_return_witness :
    (vm_execute_step c2sPc = .vmError "pc flew off the end of memory" ∧
      isProcessExit (vm_execute_step c2sPc) = false) ∧
    (vm_execute_step c2sOp = .vmError "strange opcode" ∧
      isProcessExit (vm_execute_step c2sOp) = false) ∧
    (vm_execute_step c2sArgs = .vmError "wrong number of args. expected %ld, got %ld\n" ∧
      isProcessExit (vm_execute_step c2sArgs) = false) ∧
    (vm_execute_step c2sArgsdot = .vmError "wrong number of args" ∧
      isProcessExit (vm_execute_step c2sArgsdot) = false) ∧
    (vm_execute_step c2sCallj = .vmError "dont know how to invoke" ∧
      isProcessExit (vm_execute_step c2sCallj) = false) ∧
    (vm_execute_step c2sFcallj = .vmError "dont know how to invoke" ∧
      isProcessExit (vm_execute_step c2sFcallj) = false) :=
  ⟨vm_malformed_error_return.1 c2sPc 1 0 [] (by decide) (by decide) (by decide),
   vm_malformed_error_return.2.1 c2sOp 3 0 99 [5]
     (by decide) (by decide) (by decide) (by decide) (by decide),
   vm_malformed_error_return.2.2.1 c2sArgs 8 0 13 [10] 5
     (by decide) (by decide) (by decide) (by decide) (by decide) (by decide) (by decide),
   vm_malformed_error_return.2.2.2.1 c2sArgsdot 14 0 13 [16] 5
     (by decide) (by decide) (by decide) (by decide) (by decide) (by decide) (by decide),
   vm_malformed_error_return.2.2.2.2.1 c2sCallj 18 0 23 25 [20] [25] 0 (.fixnum 42)
     (heapSet c2sCallj.heap c2sCallj.stack (.vec (([25] : List Nat).set 0 0)))
     (by decide) (by decide) (by decide) (by decide) (by decide) (by decide) (by decide)
     (by decide) (by decide) (by decide) (by decide) (by decide) (by decide)
     (fun x y h => nomatch h) (fun x y h => nomatch h) (by decide),
   vm_malformed_error_return.2.2.2.2.2 c2sFcallj 26 0 23 25 [28] [25] 0 (.fixnum 42)
     (heapSet c2sFcallj.heap c2sFcallj.stack (.vec (([25] : List Nat).set 0 0)))
     (by decide) (by decide) (by decide) (by decide) (by decide) (by decide) (by decide)
     (by decide) (by decide) (by decide) (by decide) (by decide)
     (fun x y h => nomatch h) (fun x y h => nomatch h) (by decide)⟩

/-!  Heap stability helpers shared by the call/frame theorems. -/

/-- Helper: writing one cell leaves every other cell unchanged. -/
theorem heapGet_heapSet_ne (h : List Obj) (x : Nat) (o : Obj) (y : Nat) (hne : y ≠ x) :
    heapGet (heapSet h x o) y = heapGet h y := by
  rw [heapGet, heapSet, List.getElem?_set_ne (Ne.symm hne), heapGet]

/-- Helper: writing an existing cell stores the new payload. -/
theorem heapGet_heapSet_self (h : List Obj) (x : Nat) (o o0 : Obj)
    (hx : heapGet h x = some o0) :
    heapGet (heapSet h x o) x = some o := by
  have hlt : x < h.length := by
    by_contra hge
    rw [heapGet, List.getElem?_eq_none (by omega)] at hx
    exact Option.noConfusion hx
  rw [heapGet, heapSet, List.getElem?_set_self hlt]

/-- Helper: two cells with different payloads are different cells. -/
theorem heap_ne_of_payload (h : List Obj) (x y : Nat) (o1 o2 : Obj)
    (hx : heapGet h x = some o1) (hy : heapGet h y = some o2) (hne : o1 ≠ o2) :
    x ≠ y := by
  intro he
  subst he
  rw [hx] at hy
  exact hne (Option.some.injEq .. ▸ hy)

/-- Helper: a cell id read from the heap is within the store. -/
theorem heapGet_lt_length (h : List Obj) (x : Nat) (o : Obj)
    (hx : heapGet h x = some o) : x < h.length := by
  by_contra hge
  rw [heapGet, List.getElem?_eq_none (by omega)] at hx
  exact Option.noConfusion hx

/-- Helper: a successful carF survives overwriting a VECTOR cell. -/
theorem carF_set_vec (h : List Obj) (x i a : Nat) (es : List Nat) (o : Obj)
    (hx : heapGet h x = some (.vec es)) (hi : carF h i = some a) :
    carF (heapSet h x o) i = some a := by
  rw [carF] at hi
  rcases hp : heapGet h i with _ | oi
  · rw [hp] at hi; exact Option.noConfusion hi
  rw [hp] at hi
  cases oi <;> try exact Option.noConfusion hi
  case pair ca cd =>
    have hne : i ≠ x := heap_ne_of_payload h i x _ _ hp hx (by simp)
    rw [carF, heapGet_heapSet_ne h x o i hne, hp]
    exact hi

/-- Helper: a successful cdrF survives overwriting a VECTOR cell. -/
theorem cdrF_set_vec (h : List Obj) (x i a : Nat) (es : List Nat) (o : Obj)
    (hx : heapGet h x = some (.vec es)) (hi : cdrF h i = some a) :
    cdrF (heapSet h x o) i = some a := by
  rw [cdrF] at hi
  rcases hp : heapGet h i with _ | oi
  · rw [hp] at hi; exact Option.noConfusion hi
  rw [hp] at hi
  cases oi <;> try exact Option.noConfusion hi
  case pair ca cd =>
    have hne : i ≠ x := heap_ne_of_payload h i x _ _ hp hx (by simp)
    rw [cdrF, heapGet_heapSet_ne h x o i hne, hp]
    exact hi

/-- Helper: a successful longF survives overwriting a VECTOR cell. -/
theorem longF_set_vec (h : List Obj) (x i : Nat) (v : Int) (es : List Nat) (o : Obj)
    (hx : heapGet h x = some (.vec es)) (hi : longF h i = some v) :
    longF (heapSet h x o) i = some v := by
  rw [longF] at hi
  rcases hp : heapGet h i with _ | oi
  · rw [hp] at hi; exact Option.noConfusion hi
  rw [hp] at hi
  cases oi <;> try exact Option.noConfusion hi
  case fixnum n =>
    have hne : i ≠ x := heap_ne_of_payload h i x _ _ hp hx (by simp)
    rw [longF, heapGet_heapSet_ne h x o i hne, hp]
    exact hi

/-- Helper: a successful arg1Of survives overwriting a VECTOR cell. -/
theorem arg1Of_set_vec (h : List Obj) (x i a : Nat) (es : List Nat) (o : Obj)
    (hx : heapGet h x = some (.vec es)) (hi : arg1Of h i = some a) :
    arg1Of (heapSet h x o) i = some a := by
  rw [arg1Of] at hi
  rcases hd : cdrF h i with _ | d
  · rw [hd] at hi; exact Option.noConfusion hi
  rw [hd] at hi
  rw [Option.some_bind] at hi
  rw [arg1Of, cdrF_set_vec h x i d es o hx hd, Option.some_bind]
  exact carF_set_vec h x d a es o hx hi

/-- Helper: cells below the append boundary are unchanged by append. -/
theorem heapGet_append_left (h tail : List Obj) (x : Nat) (hx : x < h.length) :
    heapGet (h ++ tail) x = heapGet h x := by
  rw [heapGet, heapGet, List.getElem?_append_left hx]

/-- Helper: the appended cell sits at the old length. -/
theorem heapGet_concat_self (h : List Obj) (o : Obj) :
    heapGet (h ++ [o]) h.length = some o := by
  rw [heapGet, List.getElem?_concat_length]

/-- C6: dispatching a call to a compiled procedure: via _callj_ the
caller env cons is reused — its cdr is destructively set to the callee
captured environment, its car (the current top frame) is preserved, and
no cell is allocated — while via _fcallj_ the callee receives a freshly
consed environment whose new top frame is a fresh vector of n+1 empty
slots, and the caller env cons and its frame are left unchanged. -/
theorem callj_fcallj_env_discipline :
    (∀ (s : VMState) (bc cenv bcT cenvT frame rest a1 n : Nat) (codes es fes : List Nat),
        heapGet s.heap s.fn = some (.compiledProc bc cenv) →
        heapGet s.heap bc = some (.vec codes) →
        s.pc < codes.length →
        opcodeOf s.heap (codes.getD s.pc 0) = some 9 →
        heapGet s.heap s.stack = some (.vec es) →
        0 < s.stackTop → s.stackTop ≤ es.length →
        heapGet s.heap (es.getD (s.stackTop - 1) 0) = some (.compiledProc bcT cenvT) →
        arg1Of s.heap (codes.getD s.pc 0) = some a1 →
        longF s.heap a1 = some (n : Int) →
        heapGet s.heap s.env = some (.pair frame rest) →
        heapGet s.heap frame = some (.vec fes) →
        frame ≠ s.stack →
        ∃ h2,
          vm_execute_step s = .enter { s with
            heap := h2, fn := es.getD (s.stackTop - 1) 0,
            pc := 0, nArgs := (n : Int), stackTop := s.stackTop - 1 } ∧
          h2.length = s.heap.length ∧
          heapGet h2 s.env = some (.pair frame cenvT) ∧
          heapGet h2 frame = some (.vec fes) ∧
          (∀ x, x ≠ s.env → x ≠ s.stack → heapGet h2 x = heapGet s.heap x)) ∧
    (∀ (s : VMState) (bc cenv bcT cenvT frame rest a1 n : Nat) (codes es fes : List Nat),
        heapGet s.heap s.fn = some (.compiledProc bc cenv) →
        heapGet s.heap bc = some (.vec codes) →
        s.pc < codes.length →
        opcodeOf s.heap (codes.getD s.pc 0) = some 8 →
        heapGet s.heap s.stack = some (.vec es) →
        0 < s.stackTop → s.stackTop ≤ es.length →
        heapGet s.heap (es.getD (s.stackTop - 1) 0) = some (.compiledProc bcT cenvT) →
        arg1Of s.heap (codes.getD s.pc 0) = some a1 →
        longF s.heap a1 = some (n : Int) →
        heapGet s.heap s.env = some (.pair frame rest) →
        heapGet s.heap frame = some (.vec fes) →
        frame ≠ s.stack →
        ∃ hF,
          vm_execute_step s = .enter { s with
            heap := hF, fn := es.getD (s.stackTop - 1) 0,
            pc := 0, nArgs := (n : Int), env := s.heap.length + 1,
            stackTop := s.stackTop - 1 } ∧
          heapGet hF (s.heap.length + 1) = some (.pair s.heap.length cenvT) ∧
          heapGet hF s.heap.length = some (.vec (List.replicate (n + 1) s.emptyId)) ∧
          heapGet hF s.env = some (.pair frame rest) ∧
          heapGet hF frame = some (.vec fes) ∧
          (∀ x, x ≠ s.stack → x < s.heap.length → heapGet hF x = heapGet s.heap x)) := by
  constructor
  · intro s bc cenv bcT cenvT frame rest a1 n codes es fes
      hfn hbc hpc hop hst h0 hle ht harg hlong henv hframe hfs
    have hpop := vector_pop_eq s.heap s.stack s.emptyId s.stackTop es hst h0 hle
    set t0 := es.getD (s.stackTop - 1) 0 with ht0
    set h1 := heapSet s.heap s.stack (.vec (es.set (s.stackTop - 1) s.emptyId)) with hh1
    have htx : t0 ≠ s.stack := heap_ne_of_payload _ _ _ _ _ ht hst (by simp)
    have ht1 : heapGet h1 t0 = some (.compiledProc bcT cenvT) := by
      rw [hh1, heapGet_heapSet_ne _ _ _ _ htx]; exact ht
    have hunwrap : unwrapMeta h1 t0 = t0 := by rw [unwrapMeta, ht1]
    have harg1 : arg1Of h1 (codes.getD s.pc 0) = some a1 :=
      arg1Of_set_vec _ _ _ _ _ _ hst harg
    have hlong1 : longF h1 a1 = some (n : Int) :=
      longF_set_vec _ _ _ _ _ _ hst hlong
    have henvstack : s.env ≠ s.stack := heap_ne_of_payload _ _ _ _ _ henv hst (by simp)
    have henv1 : heapGet h1 s.env = some (.pair frame rest) := by
      rw [hh1, heapGet_heapSet_ne _ _ _ _ henvstack]; exact henv
    have hsetcdr : setCdrF h1 s.env cenvT =
        some (heapSet h1 s.env (.pair frame cenvT)) := by
      rw [setCdrF, henv1]
    have hfe : frame ≠ s.env := heap_ne_of_payload _ _ _ _ _ hframe henv (by simp)
    refine ⟨heapSet h1 s.env (.pair frame cenvT), ?_, ?_, ?_, ?_, ?_⟩
    · rw [vm_step_fetch s bc cenv 9 codes hfn hbc hpc hop]
      simp only [dispatchOp, stepCallj, hpop, hunwrap, harg1, hlong1, reduceIte]
      rw [ht1]
      simp only [calljEnter, hsetcdr]
      norm_num
      intro hcon
      exact absurd hcon (by omega)
    · simp [heapSet, hh1]
    · exact heapGet_heapSet_self _ _ _ _ henv1
    · rw [heapGet_heapSet_ne _ _ _ _ hfe, hh1, heapGet_heapSet_ne _ _ _ _ hfs]
      exact hframe
    · intro x hxe hxs
      rw [heapGet_heapSet_ne _ _ _ _ hxe, hh1, heapGet_heapSet_ne _ _ _ _ hxs]
  · intro s bc cenv bcT cenvT frame rest a1 n codes es fes
      hfn hbc hpc hop hst h0 hle ht harg hlong henv hframe hfs
    have hpop := vector_pop_eq s.heap s.stack s.emptyId s.stackTop es hst h0 hle
    set t0 := es.getD (s.stackTop - 1) 0 with ht0
    set h1 := heapSet s.heap s.stack (.vec (es.set (s.stackTop - 1) s.emptyId)) with hh1
    have hlen1 : h1.length = s.heap.length := by rw [hh1, heapSet, List.length_set]
    have htx : t0 ≠ s.stack := heap_ne_of_payload _ _ _ _ _ ht hst (by simp)
    have ht1 : heapGet h1 t0 = some (.compiledProc bcT cenvT) := by
      rw [hh1, heapGet_heapSet_ne _ _ _ _ htx]; exact ht
    have hunwrap : unwrapMeta h1 t0 = t0 := by rw [unwrapMeta, ht1]
    have harg1 : arg1Of h1 (codes.getD s.pc 0) = some a1 :=
      arg1Of_set_vec _ _ _ _ _ _ hst harg
    have hlong1 : longF h1 a1 = some (n : Int) :=
      longF_set_vec _ _ _ _ _ _ hst hlong
    have henvstack : s.env ≠ s.stack := heap_ne_of_payload _ _ _ _ _ henv hst (by simp)
    have htn : ((n : Int) + 1).toNat = n + 1 := by omega
    set hF : List Obj :=
      (h1 ++ [.vec (List.replicate (n + 1) s.emptyId)]) ++ [.pair h1.length cenvT] with hhF
    have hstab : ∀ x, x < s.heap.length → x ≠ s.stack → heapGet hF x = heapGet s.heap x := by
      intro x hxl hxs
      rw [hhF, heapGet_append_left _ _ _ (by simp; omega),
        heapGet_append_left _ _ _ (by omega), hh1, heapGet_heapSet_ne _ _ _ _ hxs]
    refine ⟨hF, ?_, ?_, ?_, ?_, ?_, ?_⟩
    · rw [vm_step_fetch s bc cenv 8 codes hfn hbc hpc hop]
      simp only [dispatchOp, stepFcallj, hpop, hunwrap, harg1, hlong1, reduceIte]
      rw [ht1]
      simp only [fcalljEnter, makeVectorF, consF, heapAlloc, htn]
      simp [hhF, hlen1]
    · rw [hhF]
      have : (h1 ++ [Obj.vec (List.replicate (n + 1) s.emptyId)]).length = s.heap.length + 1 := by
        simp [hlen1]
      rw [← this, heapGet_concat_self, hlen1]
    · rw [hhF, heapGet_append_left _ _ _ (by simp; omega), ← hlen1, heapGet_concat_self]
    · have := heapGet_lt_length _ _ _ henv
      rw [hstab s.env this henvstack]; exact henv
    · have := heapGet_lt_length _ _ _ hframe
      rw [hstab frame this hfs]; exact hframe
    · intro x hxs hxl
      exact hstab x hxl hxs

/-- Witness for C6: a (callj 2) and an (fcallj 2) dispatch on the
concrete states above. -/
theorem callj_fcallj_env_discipline_witness :
    (∃ h2,
      vm_execute_step c6State = .enter { c6State with
        heap := h2, fn := ([13, 4] : List Nat).getD (c6State.stackTop - 1) 0,
        pc := 0, nArgs := ((2 : Nat) : Int), stackTop := c6State.stackTop - 1 } ∧
      h2.length = c6State.heap.length ∧
      heapGet h2 c6State.env = some (.pair 1 7) ∧
      heapGet h2 1 = some (.vec [0]) ∧
      (∀ x, x ≠ c6State.env → x ≠ c6State.stack →
        heapGet h2 x = heapGet c6State.heap x)) ∧
    (∃ hF,
      vm_execute_step c6fState = .enter { c6fState with
        heap := hF, fn := ([13, 4] : List Nat).getD (c6fState.stackTop - 1) 0,
        pc := 0, nArgs := ((2 : Nat) : Int), env := c6fState.heap.length + 1,
        stackTop := c6fState.stackTop - 1 } ∧
      heapGet hF (c6fState.heap.length + 1) = some (.pair c6fState.heap.length 7) ∧
      heapGet hF c6fState.heap.length = some (.vec (List.replicate (2 + 1) c6fState.emptyId)) ∧
      heapGet hF c6fState.env = some (.pair 1 0) ∧
      heapGet hF 1 = some (.vec [0]) ∧
      (∀ x, x ≠ c6fState.stack → x < c6fState.heap.length →
        heapGet hF x = heapGet c6fState.heap x)) :=
  ⟨callj_fcallj_env_discipline.1 c6State 3 0 5 7 1 0 6 2 [8] [13, 4] [0]
      (by decide) (by decide) (by decide) (by decide) (by decide) (by decide) (by decide)
      (by decide) (by decide) (by decide) (by decide) (by decide) (by decide),
   callj_fcallj_env_discipline.2 c6fState 17 0 5 7 1 0 6 2 [15] [13, 4] [0]
      (by decide) (by decide) (by decide) (by decide) (by decide) (by decide) (by decide)
      (by decide) (by decide) (by decide) (by decide) (by decide) (by decide)⟩

/-- Helper: an in-bounds lookup returns the getD value. -/
theorem getElem?_eq_some_getD (l : List Nat) (i : Nat) (hi : i < l.length) :
    l[i]? = some (l.getD i 0) := by
  rw [List.getD_eq_getElem?_getD, List.getElem?_eq_getElem hi]
  rfl

/-- Helper: getD away from a set index is unchanged. -/
theorem getD_set_ne (l : List Nat) (a b i : Nat) (hne : i ≠ a) :
    (l.set a b).getD i 0 = l.getD i 0 := by
  rw [List.getD_eq_getElem?_getD, List.getD_eq_getElem?_getD,
    List.getElem?_set_ne (Ne.symm hne)]

/-- Helper: a proper list survives overwriting a VECTOR cell. -/
theorem ProperList_set_vec (h : List Obj) (x : Nat) (esx : List Nat) (o : Obj)
    (c : Nat) (L : List Nat)
    (hx : heapGet h x = some (.vec esx)) (hp : ProperList h c L) :
    ProperList (heapSet h x o) c L := by
  induction hp with
  | nil hi =>
    exact .nil (by
      rw [heapGet_heapSet_ne _ _ _ _ (heap_ne_of_payload _ _ _ _ _ hi hx (by simp))]
      exact hi)
  | cons hi hd ih =>
    exact .cons (by
      rw [heapGet_heapSet_ne _ _ _ _ (heap_ne_of_payload _ _ _ _ _ hi hx (by simp))]
      exact hi) ih

/-- Helper: a proper list survives extending the heap. -/
theorem ProperList_append (h t : List Obj) (c : Nat) (L : List Nat)
    (hp : ProperList h c L) : ProperList (h ++ t) c L := by
  induction hp with
  | nil hi =>
    exact .nil (by rw [heapGet_append_left _ _ _ (heapGet_lt_length _ _ _ hi)]; exact hi)
  | cons hi hd ih =>
    exact .cons (by rw [heapGet_append_left _ _ _ (heapGet_lt_length _ _ _ hi)]; exact hi) ih

/-- Helper: a proper list survives any heap change that touches only the
stack and frame VECTOR cells. -/
theorem ProperList_stable (h h' : List Obj) (stackId frameId : Nat)
    (ess fsf : List Nat) (c : Nat) (L : List Nat)
    (hs : heapGet h stackId = some (.vec ess))
    (hf : heapGet h frameId = some (.vec fsf))
    (hstab : ∀ x, x ≠ stackId → x ≠ frameId → heapGet h' x = heapGet h x)
    (hp : ProperList h c L) : ProperList h' c L := by
  induction hp with
  | nil hi =>
    exact .nil (by
      rw [hstab _ (heap_ne_of_payload _ _ _ _ _ hi hs (by simp))
        (heap_ne_of_payload _ _ _ _ _ hi hf (by simp))]
      exact hi)
  | cons hi hd ih =>
    exact .cons (by
      rw [hstab _ (heap_ne_of_payload _ _ _ _ _ hi hs (by simp))
        (heap_ne_of_payload _ _ _ _ _ hi hf (by simp))]
      exact hi) ih

/-- Helper: full characterisation of the required-argument pop loop of
_args_/_argsdot_: the top k stack entries land in frame slots k-1 .. 0,
higher frame slots and lower stack entries are untouched, and no other
heap cell changes. -/
theorem popRequiredArgs_spec (emptyId stackId frameId : Nat) :
    ∀ (k : Nat) (h : List Obj) (top : Nat) (es fes : List Nat),
      heapGet h stackId = some (.vec es) →
      heapGet h frameId = some (.vec fes) →
      stackId ≠ frameId →
      k ≤ top → top ≤ es.length → k ≤ fes.length →
      ∃ h' es' fes',
        popRequiredArgs emptyId stackId frameId k h top = some (h', top - k) ∧
        heapGet h' stackId = some (.vec es') ∧
        heapGet h' frameId = some (.vec fes') ∧
        es'.length = es.length ∧ fes'.length = fes.length ∧
        (∀ i, i < k → fes'[i]? = es[top - k + i]?) ∧
        (∀ i, k ≤ i → fes'[i]? = fes[i]?) ∧
        (∀ j, j < top - k → es'[j]? = es[j]?) ∧
        (∀ x, x ≠ stackId → x ≠ frameId → heapGet h' x = heapGet h x) := by
  intro k
  induction k with
  | zero =>
    intro h top es fes hs hf hsf hk hte hkf
    exact ⟨h, es, fes, by simp [popRequiredArgs], hs, hf, rfl, rfl,
      (by intro i hi; omega), (fun i _ => rfl), (fun j _ => rfl), (fun x _ _ => rfl)⟩
  | succ k ih =>
    intro h top es fes hs hf hsf hk hte hkf
    have h0 : 0 < top := by omega
    have hpop := vector_pop_eq h stackId emptyId top es hs h0 hte
    set esA := es.set (top - 1) emptyId with hesA
    set hA := heapSet h stackId (.vec esA) with hhA
    have hAf : heapGet hA frameId = some (.vec fes) := by
      rw [hhA, heapGet_heapSet_ne _ _ _ _ (Ne.symm hsf)]; exact hf
    have hklt : k < fes.length := by omega
    have hvset : vsetF hA frameId k (es.getD (top - 1) 0) =
        some (heapSet hA frameId (.vec (fes.set k (es.getD (top - 1) 0)))) := by
      simp only [vsetF, hAf]
      rw [if_pos hklt]
    set fesB := fes.set k (es.getD (top - 1) 0) with hfesB
    set hB := heapSet hA frameId (.vec fesB) with hhB
    have hBs : heapGet hB stackId = some (.vec esA) := by
      rw [hhB, heapGet_heapSet_ne _ _ _ _ hsf, hhA]
      exact heapGet_heapSet_self _ _ _ _ hs
    have hBf : heapGet hB frameId = some (.vec fesB) :=
      heapGet_heapSet_self _ _ _ _ hAf
    have hrec := ih hB (top - 1) esA fesB hBs hBf hsf (by omega)
      (by rw [hesA, List.length_set]; omega) (by rw [hfesB, List.length_set]; omega)
    obtain ⟨h', es', fes', hrun, hs', hf', hel, hfl, hfill, habove, hbelow, hstab⟩ := hrec
    have hidx : top - 1 - k = top - (k + 1) := by omega
    refine ⟨h', es', fes', ?_, hs', hf', ?_, ?_, ?_, ?_, ?_, ?_⟩
    · simp only [popRequiredArgs, hpop, hvset]
      rw [hrun, hidx]
    · rw [hel, hesA, List.length_set]
    · rw [hfl, hfesB, List.length_set]
    · intro i hi
      rcases Nat.lt_or_ge i k with hik | hik
      · rw [hfill i hik, hesA, List.getElem?_set_ne (by omega)]
        congr 1
        omega
      · have hik' : i = k := by omega
        rw [hik', habove k (le_refl k), hfesB, List.getElem?_set_self hklt]
        have hidx2 : top - (k + 1) + k = top - 1 := by omega
        rw [hidx2, getElem?_eq_some_getD es (top - 1) (by omega)]
    · intro i hi
      rw [habove i (by omega), hfesB, List.getElem?_set_ne (by omega)]
    · intro j hj
      rw [hbelow j (by omega), hesA, List.getElem?_set_ne (by omega)]
    · intro x hxs hxf
      rw [hstab x hxs hxf, hhB, heapGet_heapSet_ne _ _ _ _ hxf, hhA,
        heapGet_heapSet_ne _ _ _ _ hxs]

/-- Helper: full characterisation of the excess-argument loop of
_argsdot_: the top m stack entries are consed, in pop order, onto the
list in frame slot `slot`, which therefore ends up holding the m entries
in stack order followed by the previous list. -/
theorem popDottedArgs_spec (emptyId stackId frameId slot : Nat) :
    ∀ (m : Nat) (h : List Obj) (top : Nat) (es fes : List Nat) (c0 : Nat) (L : List Nat),
      heapGet h stackId = some (.vec es) →
      heapGet h frameId = some (.vec fes) →
      stackId ≠ frameId →
      m ≤ top → top ≤ es.length → slot < fes.length →
      fes[slot]? = some c0 →
      ProperList h c0 L →
      ∃ h' es' fes' c',
        popDottedArgs emptyId stackId frameId slot m h top = some (h', top - m) ∧
        heapGet h' stackId = some (.vec es') ∧
        heapGet h' frameId = some (.vec fes') ∧
        es'.length = es.length ∧ fes'.length = fes.length ∧
        fes'[slot]? = some c' ∧
        ProperList h' c' ((List.range m).map (fun j => es.getD (top - m + j) 0) ++ L) ∧
        (∀ i, i ≠ slot → fes'[i]? = fes[i]?) ∧
        (∀ j, j < top - m → es'[j]? = es[j]?) ∧
        (∀ x, x ≠ stackId → x ≠ frameId → x < h.length → heapGet h' x = heapGet h x) := by
  intro m
  induction m with
  | zero =>
    intro h top es fes c0 L hs hf hsf hm hte hsl hslot hp
    exact ⟨h, es, fes, c0, by simp [popDottedArgs], hs, hf, rfl, rfl, hslot,
      by simpa using hp, (fun i _ => rfl), (fun j _ => rfl), (fun x _ _ _ => rfl)⟩
  | succ m ih =>
    intro h top es fes c0 L hs hf hsf hm hte hsl hslot hp
    have h0 : 0 < top := by omega
    have hpop := vector_pop_eq h stackId emptyId top es hs h0 hte
    set v := es.getD (top - 1) 0 with hv
    set esA := es.set (top - 1) emptyId with hesA
    set hA := heapSet h stackId (.vec esA) with hhA
    have hAl : hA.length = h.length := by rw [hhA, heapSet, List.length_set]
    have hAs : heapGet hA stackId = some (.vec esA) := heapGet_heapSet_self _ _ _ _ hs
    have hAf : heapGet hA frameId = some (.vec fes) := by
      rw [hhA, heapGet_heapSet_ne _ _ _ _ (Ne.symm hsf)]; exact hf
    have hvref : vrefF hA frameId slot = some c0 := by
      simp only [vrefF, hAf]; exact hslot
    set hB := hA ++ [Obj.pair v c0] with hhB
    set cNew := hA.length with hcNew
    have hBpair : heapGet hB cNew = some (.pair v c0) := by
      rw [hhB, hcNew]; exact heapGet_concat_self _ _
    have hBs : heapGet hB stackId = some (.vec esA) := by
      rw [hhB, heapGet_append_left _ _ _ (heapGet_lt_length _ _ _ hAs)]; exact hAs
    have hBf : heapGet hB frameId = some (.vec fes) := by
      rw [hhB, heapGet_append_left _ _ _ (heapGet_lt_length _ _ _ hAf)]; exact hAf
    have hvset : vsetF hB frameId slot cNew =
        some (heapSet hB frameId (.vec (fes.set slot cNew))) := by
      simp only [vsetF, hBf]
      rw [if_pos hsl]
    set fesC := fes.set slot cNew with hfesC
    set hC := heapSet hB frameId (.vec fesC) with hhC
    have hCs : heapGet hC stackId = some (.vec esA) := by
      rw [hhC, heapGet_heapSet_ne _ _ _ _ hsf]; exact hBs
    have hCf : heapGet hC frameId = some (.vec fesC) := heapGet_heapSet_self _ _ _ _ hBf
    have hpA : ProperList hA c0 L := ProperList_set_vec h stackId es _ c0 L hs hp
    have hpB : ProperList hB c0 L := ProperList_append hA _ c0 L hpA
    have hpB2 : ProperList hB cNew (v :: L) := .cons hBpair hpB
    have hpC : ProperList hC cNew (v :: L) :=
      ProperList_set_vec hB frameId fes _ cNew _ hBf hpB2
    have hrec := ih hC (top - 1) esA fesC cNew (v :: L) hCs hCf hsf (by omega)
      (by rw [hesA, List.length_set]; omega) (by rw [hfesC, List.length_set]; omega)
      (by rw [hfesC]; exact List.getElem?_set_self hsl) hpC
    obtain ⟨h', es', fes', c', hrun, hs', hf', hel, hfl, hslot', hp', hother, hbelow, hstab⟩ :=
      hrec
    have hidx : top - 1 - m = top - (m + 1) := by omega
    have hlist : (List.range m).map (fun j => esA.getD (top - 1 - m + j) 0) ++ (v :: L) =
        (List.range (m + 1)).map (fun j => es.getD (top - (m + 1) + j) 0) ++ L := by
      rw [List.range_succ, List.map_append, List.append_assoc]
      simp only [List.map_cons, List.map_nil, List.singleton_append]
      congr 1
      · apply List.map_congr_left
        intro j hj
        rw [List.mem_range] at hj
        rw [hesA, getD_set_ne es (top - 1) emptyId _ (by omega)]
        congr 1
        omega
      · congr 1
        rw [hv]
        congr 1
        omega
    refine ⟨h', es', fes', c', ?_, hs', hf', ?_, ?_, hslot', ?_, ?_, ?_, ?_⟩
    · simp only [popDottedArgs, hpop, hvref, consF, heapAlloc, ← hhB, ← hcNew, hvset]
      rw [hrun, hidx]
    · rw [hel, hesA, List.length_set]
    · rw [hfl, hfesC, List.length_set]
    · exact hlist ▸ hp'
    · intro i hi
      rw [hother i hi, hfesC, List.getElem?_set_ne (Ne.symm hi)]
    · intro j hj
      rw [hbelow j (by omega), hesA, List.getElem?_set_ne (by omega)]
    · intro x hxs hxf hxl
      rw [hstab x hxs hxf (by rw [hhC, heapSet, List.length_set, hhB]; simp; omega),
        hhC, heapGet_heapSet_ne _ _ _ _ hxf, hhB,
        heapGet_append_left _ _ _ (by omega),
        hhA, heapGet_heapSet_ne _ _ _ _ hxs]

/-- Helper: the tail of the _argsdot_ case after the top frame has been
selected: clear slot n, cons the N - n excess arguments into it, then
pop the n required arguments into slots n-1 .. 0. -/
theorem argsdot_tail_spec (emptyId stackId frameId : Nat) (h1 : List Obj)
    (es fes : List Nat) (n N T : Nat)
    (hs : heapGet h1 stackId = some (.vec es))
    (hf : heapGet h1 frameId = some (.vec fes))
    (hsf : stackId ≠ frameId)
    (hemp : heapGet h1 emptyId = some .emptyList)
    (hfl : n + 1 ≤ fes.length)
    (hnN : n ≤ N) (hNT : N ≤ T) (hTe : T ≤ es.length) :
    ∃ h2 h3 h4 es4 fes4 c,
      vsetF h1 frameId n emptyId = some h2 ∧
      popDottedArgs emptyId stackId frameId n (N - n) h2 T = some (h3, T - (N - n)) ∧
      popRequiredArgs emptyId stackId frameId n h3 (T - (N - n)) = some (h4, T - N) ∧
      heapGet h4 frameId = some (.vec fes4) ∧
      heapGet h4 stackId = some (.vec es4) ∧
      fes4.length = fes.length ∧ es4.length = es.length ∧
      (∀ i, i < n → fes4[i]? = es[T - N + i]?) ∧
      (∃ c3, fes4[n]? = some c3 ∧ c3 = c) ∧
      ProperList h4 c ((List.range (N - n)).map (fun j => es.getD (T - (N - n) + j) 0)) ∧
      (∀ x, x ≠ stackId → x ≠ frameId → x < h1.length → heapGet h4 x = heapGet h1 x) := by
  have hn : n < fes.length := by omega
  have hvset : vsetF h1 frameId n emptyId =
      some (heapSet h1 frameId (.vec (fes.set n emptyId))) := by
    simp only [vsetF, hf]
    rw [if_pos hn]
  set fes2 := fes.set n emptyId with hfes2
  set h2 := heapSet h1 frameId (.vec fes2) with hh2
  have h2s : heapGet h2 stackId = some (.vec es) := by
    rw [hh2, heapGet_heapSet_ne _ _ _ _ hsf]; exact hs
  have h2f : heapGet h2 frameId = some (.vec fes2) := heapGet_heapSet_self _ _ _ _ hf
  have hei : emptyId ≠ frameId := heap_ne_of_payload _ _ _ _ _ hemp hf (by simp)
  have h2e : heapGet h2 emptyId = some .emptyList := by
    rw [hh2, heapGet_heapSet_ne _ _ _ _ hei]; exact hemp
  have h2l : h2.length = h1.length := by rw [hh2, heapSet, List.length_set]
  have hpe : ProperList h2 emptyId [] := .nil h2e
  have hdot := popDottedArgs_spec emptyId stackId frameId n (N - n) h2 T es fes2
    emptyId [] h2s h2f hsf (by omega) hTe
    (by rw [hfes2, List.length_set]; omega)
    (by rw [hfes2]; exact List.getElem?_set_self hn) hpe
  obtain ⟨h3, es3, fes3, c3, hrun3, h3s, h3f, he3, hf3, hslot3, hp3, hoth3, hbel3, hstab3⟩ :=
    hdot
  have hreq := popRequiredArgs_spec emptyId stackId frameId n h3 (T - (N - n)) es3 fes3
    h3s h3f hsf (by omega) (by omega) (by rw [hf3, hfes2, List.length_set]; omega)
  obtain ⟨h4, es4, fes4, hrun4, h4s, h4f, he4, hf4, hfill4, habove4, hbel4, hstab4⟩ := hreq
  have ht4 : T - (N - n) - n = T - N := by omega
  refine ⟨h2, h3, h4, es4, fes4, c3, hvset, hrun3, ?_, h4f, h4s, ?_, ?_, ?_, ⟨c3, ?_, rfl⟩,
    ?_, ?_⟩
  · rw [hrun4, ht4]
  · rw [hf4, hf3, hfes2, List.length_set]
  · rw [he4, he3]
  · intro i hi
    rw [hfill4 i hi]
    have : T - (N - n) - n + i < T - (N - n) := by omega
    rw [hbel3 _ this]
    congr 1
    omega
  · rw [habove4 n (le_refl n), hslot3]
  · have hp3' : ProperList h3 c3
        ((List.range (N - n)).map (fun j => es.getD (T - (N - n) + j) 0)) := by
      simpa using hp3
    exact ProperList_stable h3 h4 stackId frameId es3 fes3 c3 _ h3s h3f hstab4 hp3'
  · intro x hxs hxf hxl
    rw [hstab4 x hxs hxf, hstab3 x hxs hxf (by omega), hh2,
      heapGet_heapSet_ne _ _ _ _ hxf]

/-- Helper: dispatch of opcode 1 selects the _argsdot_ case. -/
theorem dispatchOp_argsdot (s : VMState) (instr : Nat) :
    dispatchOp s instr 1 = stepArgsdot s instr := by
  norm_num [dispatchOp]

/-- C8: executing argsdot with operand n and N ≥ n arguments on the
stack leaves slots 0 .. n-1 of the top frame holding the first n
arguments (slot 0 = leftmost) and slot n holding the remaining N - n
arguments as a proper list in source order; with fewer than n arguments
the dispatch is the arg-count VM_ASSERT error. -/
theorem argsdot_spec :
    ∀ (s : VMState) (bc cenv a1 frameId envRest : Nat) (codes es fes : List Nat) (n N : Nat),
      heapGet s.heap s.fn = some (.compiledProc bc cenv) →
      heapGet s.heap bc = some (.vec codes) →
      s.pc < codes.length →
      opcodeOf s.heap (codes.getD s.pc 0) = some 1 →
      arg1Of s.heap (codes.getD s.pc 0) = some a1 →
      longF s.heap a1 = some (n : Int) →
      s.nArgs = (N : Int) →
      heapGet s.heap s.env = some (.pair frameId envRest) →
      heapGet s.heap frameId = some (.vec fes) →
      heapGet s.heap s.stack = some (.vec es) →
      heapGet s.heap s.emptyId = some .emptyList →
      frameId ≠ s.stack →
      N ≤ s.stackTop → s.stackTop ≤ es.length →
      (n ≤ N →
        ∃ h' frame' fes' c,
          vm_execute_step s = .next { s with
            heap := h', stackTop := s.stackTop - N, pc := s.pc + 1 } ∧
          heapGet h' s.env = some (.pair frame' envRest) ∧
          heapGet h' frame' = some (.vec fes') ∧
          (∀ i, i < n → fes'[i]? = es[s.stackTop - N + i]?) ∧
          fes'[n]? = some c ∧
          ProperList h' c
            ((List.range (N - n)).map (fun j => es.getD (s.stackTop - (N - n) + j) 0))) ∧
      (N < n → vm_execute_step s = .vmError "wrong number of args") := by
  intro s bc cenv a1 frameId envRest codes es fes n N
    hfn hbc hpc hop harg hlong hN henv hframe hstack hemp hfs hNT hTe
  have hfetch := vm_step_fetch s bc cenv 1 codes hfn hbc hpc hop
  constructor
  · intro hnN
    have hcar : carF s.heap s.env = some frameId := by simp only [carF, henv]
    have hsize : vsizeF s.heap frameId = some fes.length := by simp only [vsizeF, hframe]
    have hmcount : (s.nArgs - (n : Int)).toNat = N - n := by rw [hN]; omega
    have hse : s.stack ≠ s.env := heap_ne_of_payload _ _ _ _ _ hstack henv (by simp)
    by_cases hbig : ((n : Int) + 1) > (fes.length : Int)
    · -- the frame is too small: a fresh frame of n + 1 empty slots is consed in
      have henvlt : s.env < s.heap.length := heapGet_lt_length _ _ _ henv
      have hstlt : s.stack < s.heap.length := heapGet_lt_length _ _ _ hstack
      have hemplt : s.emptyId < s.heap.length := heapGet_lt_length _ _ _ hemp
      have hmidenv : heapGet (s.heap ++ [Obj.vec (List.replicate (n + 1) s.emptyId)]) s.env =
          some (.pair frameId envRest) := by
        rw [heapGet_append_left _ _ _ henvlt]; exact henv
      have hsetcar : setCarF (s.heap ++ [Obj.vec (List.replicate (n + 1) s.emptyId)])
          s.env s.heap.length =
          some (heapSet (s.heap ++ [Obj.vec (List.replicate (n + 1) s.emptyId)])
            s.env (.pair s.heap.length envRest)) := by
        simp only [setCarF, hmidenv]
      set h1 := heapSet (s.heap ++ [Obj.vec (List.replicate (n + 1) s.emptyId)])
        s.env (.pair s.heap.length envRest) with hh1
      have hne_env : s.env ≠ s.heap.length := by omega
      have h1env : heapGet h1 s.env = some (.pair s.heap.length envRest) :=
        heapGet_heapSet_self _ _ _ _ hmidenv
      have h1new : heapGet h1 s.heap.length =
          some (.vec (List.replicate (n + 1) s.emptyId)) := by
        rw [hh1, heapGet_heapSet_ne _ _ _ _ (Ne.symm hne_env)]
        exact heapGet_concat_self _ _
      have h1stack : heapGet h1 s.stack = some (.vec es) := by
        rw [hh1, heapGet_heapSet_ne _ _ _ _ hse, heapGet_append_left _ _ _ hstlt]
        exact hstack
      have hemptyne : s.emptyId ≠ s.env :=
        heap_ne_of_payload _ _ _ _ _ hemp henv (by simp)
      have h1empty : heapGet h1 s.emptyId = some .emptyList := by
        rw [hh1, heapGet_heapSet_ne _ _ _ _ hemptyne, heapGet_append_left _ _ _ hemplt]
        exact hemp
      have hsnew : s.stack ≠ s.heap.length := by omega
      have h1car : carF h1 s.env = some s.heap.length := by simp only [carF, h1env]
      have h1l : h1.length = s.heap.length + 1 := by
        rw [hh1, heapSet, List.length_set]; simp
      have htail := argsdot_tail_spec s.emptyId s.stack s.heap.length h1 es
        (List.replicate (n + 1) s.emptyId) n N s.stackTop h1stack h1new hsnew h1empty
        (by simp) hnN hNT hTe
      obtain ⟨h2, h3, h4, es4, fes4, c, hvset, hrun3, hrun4, h4f, h4s, hfl4, hel4, hfill,
        ⟨c3, hslotc, hceq⟩, hplist, hstab⟩ := htail
      have henv4 : heapGet h4 s.env = some (.pair s.heap.length envRest) := by
        rw [hstab s.env (Ne.symm hse) hne_env (by omega)]
        exact h1env
      refine ⟨h4, s.heap.length, fes4, c, ?_, henv4, h4f, hfill, hceq ▸ hslotc, hplist⟩
      rw [hfetch]
      rw [dispatchOp_argsdot]
      simp only [stepArgsdot, harg, hlong]
      rw [if_neg (by omega)]
      simp only [hcar, hsize]
      rw [if_pos hbig]
      simp only [makeVectorF, heapAlloc]
      have htn : ((n : Int) + 1).toNat = n + 1 := by omega
      rw [htn]
      simp only [hsetcar, h1car, ← hh1, Nat.add_sub_cancel]
      simp only [hvset, hmcount, hrun3, hrun4]
      have hreqn : ((n : Int)).toNat = n := by omega
      rw [hreqn]
      simp only [hrun4]
    · -- the existing frame is large enough and is filled in place
      have hfl : n + 1 ≤ fes.length := by omega
      have hsf : s.stack ≠ frameId := Ne.symm hfs
      have henvframe : s.env ≠ frameId :=
        heap_ne_of_payload _ _ _ _ _ henv hframe (by simp)
      have henvlt : s.env < s.heap.length := heapGet_lt_length _ _ _ henv
      have htail := argsdot_tail_spec s.emptyId s.stack frameId s.heap es fes n N
        s.stackTop hstack hframe hsf hemp hfl hnN hNT hTe
      obtain ⟨h2, h3, h4, es4, fes4, c, hvset, hrun3, hrun4, h4f, h4s, hfl4, hel4, hfill,
        ⟨c3, hslotc, hceq⟩, hplist, hstab⟩ := htail
      have henv4 : heapGet h4 s.env = some (.pair frameId envRest) := by
        rw [hstab s.env (Ne.symm hse) henvframe henvlt]
        exact henv
      refine ⟨h4, frameId, fes4, c, ?_, henv4, h4f, hfill, hceq ▸ hslotc, hplist⟩
      rw [hfetch]
      rw [dispatchOp_argsdot]
      simp only [stepArgsdot, harg, hlong]
      rw [if_neg (by omega)]
      simp only [hcar, hsize]
      rw [if_neg hbig]
      simp only [hcar]
      have htn : ((n : Int) + 1).toNat = n + 1 := by omega
      rw [htn]
      simp only [Nat.add_sub_cancel]
      simp only [hvset, hmcount, hrun3, hrun4]
      have hreqn : ((n : Int)).toNat = n := by omega
      rw [hreqn]
      simp only [hrun4]
  · intro hlt
    rw [hfetch]
    rw [dispatchOp_argsdot]
    simp only [stepArgsdot, harg, hlong]
    rw [if_pos (by omega)]

/-- Witness for C8 at the concrete (argsdot 1) state with 3 arguments. -/
theorem argsdot_spec_witness :
    (1 ≤ 3 →
      ∃ h' frame' fes' c,
        vm_execute_step c8State = .next { c8State with
          heap := h', stackTop := c8State.stackTop - 3, pc := c8State.pc + 1 } ∧
        heapGet h' c8State.env = some (.pair frame' 0) ∧
        heapGet h' frame' = some (.vec fes') ∧
        (∀ i, i < 1 → fes'[i]? = ([11, 12, 13] : List Nat)[c8State.stackTop - 3 + i]?) ∧
        fes'[1]? = some c ∧
        ProperList h' c ((List.range (3 - 1)).map
          (fun j => ([11, 12, 13] : List Nat).getD (c8State.stackTop - (3 - 1) + j) 0))) ∧
    (3 < 1 → vm_execute_step c8State = .vmError "wrong number of args") :=
  argsdot_spec c8State 3 0 8 1 0 [5] [11, 12, 13] [0, 0] 1 3
    (by decide) (by decide) (by decide) (by decide) (by decide) (by decide) (by decide)
    (by decide) (by decide) (by decide) (by decide) (by decide) (by decide) (by decide)

/-- Helper: allocation from a nonempty free chain succeeds and touches
neither the store size, the pending extension size, nor the finalizer
log. -/
theorem alloc_from_cons (st : GCState) (nf : Bool) (obj : Nat) (rest : List Nat)
    (hx : st.nextFree = obj :: rest) :
    ∃ s', alloc_from st nf = .ok s' obj ∧ s'.data.length = st.data.length ∧
      s'.nextHeapExtension = st.nextHeapExtension ∧ s'.finLog = st.finLog :=
  ⟨{ st with
      colors := st.colors.set obj st.currentColor,
      finalizable := if nf then st.finalizable ++ [obj] else st.finalizable,
      nextFree := rest },
    by simp only [alloc_from, hx], rfl, rfl, rfl⟩

/-- Helper: the refill path of alloc_object written with the extension
decision distributed over both branches. -/
theorem alloc_object_eq_refill (s : GCState) (nf : Bool) (h : s.nextFree = []) :
    alloc_object s nf =
      (if (baker_collect s).2 = 0 ∨
          (baker_collect s).1.nextHeapExtension / (baker_collect s).2 > 2 then
        (if (extend_heap (baker_collect s).1
              (baker_collect s).1.nextHeapExtension).nextFree.isEmpty then
          AllocResult.fatal "extend_heap didnt work"
         else
          alloc_from { extend_heap (baker_collect s).1
              (baker_collect s).1.nextHeapExtension with
            nextHeapExtension := (baker_collect s).1.nextHeapExtension * 3 } nf)
       else
        (if (baker_collect s).1.nextFree.isEmpty then
          AllocResult.fatal "extend_heap didnt work"
         else alloc_from (baker_collect s).1 nf)) := by
  by_cases hc : ((baker_collect s).2 = 0 ∨
      (baker_collect s).1.nextHeapExtension / (baker_collect s).2 > 2)
  · rw [if_pos hc]
    simp only [alloc_object, h, List.isEmpty_nil, if_true]
    rw [if_pos hc]
    rfl
  · rw [if_neg hc]
    simp only [alloc_object, h, List.isEmpty_nil, if_true]
    rw [if_neg hc]

/-- C4: with a nil free pointer, alloc_object first runs baker_collect;
when the cycle freed nothing or the pending extension size divided by
the freed count exceeds 2, the heap grows by the pending extension size
and the pending size triples; if the free pointer is still nil after the
extension the allocation is fatal, and otherwise (and in the
enough-freed case) allocation succeeds in the collected state. -/
theorem alloc_object_policy (s : GCState) (nf : Bool) (h : s.nextFree = []) :
    (((baker_collect s).2 = 0 ∨
        (baker_collect s).1.nextHeapExtension / (baker_collect s).2 > 2) →
      ((extend_heap (baker_collect s).1 (baker_collect s).1.nextHeapExtension).nextFree ≠ [] →
        ∃ s' o, alloc_object s nf = .ok s' o ∧
          s'.data.length =
            (baker_collect s).1.data.length + (baker_collect s).1.nextHeapExtension ∧
          s'.nextHeapExtension = (baker_collect s).1.nextHeapExtension * 3 ∧
          s'.finLog = (baker_collect s).1.finLog) ∧
      ((extend_heap (baker_collect s).1 (baker_collect s).1.nextHeapExtension).nextFree = [] →
        alloc_object s nf = .fatal "extend_heap didnt work")) ∧
    (¬((baker_collect s).2 = 0 ∨
        (baker_collect s).1.nextHeapExtension / (baker_collect s).2 > 2) →
      ∃ s' o, alloc_object s nf = .ok s' o ∧
        s'.data.length = (baker_collect s).1.data.length ∧
        s'.nextHeapExtension = (baker_collect s).1.nextHeapExtension ∧
        s'.finLog = (baker_collect s).1.finLog) := by
  have he := alloc_object_eq_refill s nf h
  constructor
  · intro hcond
    rw [if_pos hcond] at he
    constructor
    · intro hne
      rcases hx : (extend_heap (baker_collect s).1
          (baker_collect s).1.nextHeapExtension).nextFree with _ | ⟨obj, rest⟩
      · exact absurd hx hne
      · rw [hx] at he
        simp only [List.isEmpty_cons, Bool.false_eq_true, if_false] at he
        have hx2 : ({ extend_heap (baker_collect s).1
              (baker_collect s).1.nextHeapExtension with
            nextHeapExtension := (baker_collect s).1.nextHeapExtension * 3 } : GCState).nextFree =
            obj :: rest := hx
        obtain ⟨s', hok, hd, hn, hf⟩ := alloc_from_cons _ nf obj rest hx2
        refine ⟨s', obj, by rw [he, hok], ?_, ?_, ?_⟩
        · rw [hd]
          simp [extend_heap]
        · rw [hn]
        · rw [hf]
          rfl
    · intro hnil
      rw [hnil] at he
      simpa using he
  · intro hcond
    rw [if_neg hcond] at he
    have hfreed : (baker_collect s).2 ≠ 0 := fun h0 => hcond (Or.inl h0)
    rcases hx : (baker_collect s).1.nextFree with _ | ⟨obj, rest⟩
    · have hnf2 : (baker_collect s).1.nextFree = (baker_collect s).1.active := rfl
      have hret : (baker_collect s).2 = (baker_collect s).1.active.length := rfl
      rw [hnf2] at hx
      rw [hret, hx] at hfreed
      simp at hfreed
    · rw [hx] at he
      simp only [List.isEmpty_cons, Bool.false_eq_true, if_false] at he
      obtain ⟨s', hok, hd, hn, hf⟩ := alloc_from_cons _ nf obj rest hx
      exact ⟨s', obj, by rw [he, hok], hd, hn, hf⟩

/-- Witness for C4 at the exhausted empty-heap state gcA. -/
theorem alloc_object_policy_witness :
    gcA.nextFree = [] ∧
    ((((baker_collect gcA).2 = 0 ∨
        (baker_collect gcA).1.nextHeapExtension / (baker_collect gcA).2 > 2) →
      ((extend_heap (baker_collect gcA).1
          (baker_collect gcA).1.nextHeapExtension).nextFree ≠ [] →
        ∃ s' o, alloc_object gcA false = .ok s' o ∧
          s'.data.length =
            (baker_collect gcA).1.data.length + (baker_collect gcA).1.nextHeapExtension ∧
          s'.nextHeapExtension = (baker_collect gcA).1.nextHeapExtension * 3 ∧
          s'.finLog = (baker_collect gcA).1.finLog) ∧
      ((extend_heap (baker_collect gcA).1
          (baker_collect gcA).1.nextHeapExtension).nextFree = [] →
        alloc_object gcA false = .fatal "extend_heap didnt work")) ∧
    (¬((baker_collect gcA).2 = 0 ∨
        (baker_collect gcA).1.nextHeapExtension / (baker_collect gcA).2 > 2) →
      ∃ s' o, alloc_object gcA false = .ok s' o ∧
        s'.data.length = (baker_collect gcA).1.data.length ∧
        s'.nextHeapExtension = (baker_collect gcA).1.nextHeapExtension ∧
        s'.finLog = (baker_collect gcA).1.finLog)) :=
  ⟨rfl, alloc_object_policy gcA false rfl⟩

/-!  The mark-phase invariants of baker_collect. -/

/-- Helper: a marked cell is inside the color array. -/
theorem markedAt_lt (colors : List Nat) (mc i : Nat) (h : markedAt colors mc i) :
    i < colors.length := by
  by_contra hge
  rw [markedAt, List.getElem?_eq_none (by omega)] at h
  exact Option.noConfusion h

/-- Helper: the maybe_move guard holds exactly on in-range unmarked cells. -/
theorem unmarkedAt_iff (colors : List Nat) (mc f : Nat) :
    unmarkedAt colors mc f = true ↔ f < colors.length ∧ ¬ markedAt colors mc f := by
  rw [unmarkedAt, markedAt]
  rcases hf : colors[f]? with _ | c
  · have := List.getElem?_eq_none_iff.mp hf
    simp
    omega
  · have hl : f < colors.length := by
      by_contra hge
      rw [List.getElem?_eq_none (by omega)] at hf
      exact Option.noConfusion hf
    simp [hl, bne_iff_ne]

/-- Helper: marking one cell marks exactly that cell. -/
theorem markedAt_set (colors : List Nat) (mc f i : Nat) :
    markedAt (colors.set f mc) mc i ↔
      markedAt colors mc i ∨ (i = f ∧ f < colors.length) := by
  by_cases hif : i = f
  · subst hif
    by_cases hl : i < colors.length
    · simp [markedAt, List.getElem?_set_self hl, hl]
    · rw [markedAt, markedAt, List.getElem?_eq_none (by simp; omega),
        List.getElem?_eq_none (by omega)]
      simp
      omega
  · rw [markedAt, markedAt, List.getElem?_set_ne (fun he => hif he.symm)]
    simp [hif]

/-- Helper: reachability is transitive. -/
theorem Reach_trans (data : List Obj) (a b c : Nat)
    (hab : Reach data a b) (hbc : Reach data b c) : Reach data a c := by
  induction hbc with
  | refl => exact hab
  | tail hr hf ih => exact .tail ih hf

/-- Helper: one maybe_move step characterised against the collect
invariants. -/
theorem maybeMove_spec (mc : Nat) (A : List Nat) (st : ScanState) (f : Nat)
    (hold : ∀ i, i ∈ st.old ↔ markedAt st.colors mc i)
    (holdnd : st.old.Nodup) (hactnd : st.active.Nodup)
    (hact : ∀ i, i ∈ st.active ↔ i ∈ A ∧ ¬ markedAt st.colors mc i) :
    (maybeMove mc st f).colors.length = st.colors.length ∧
    (∀ i, markedAt (maybeMove mc st f).colors mc i ↔
      markedAt st.colors mc i ∨ (i = f ∧ f < st.colors.length)) ∧
    (∀ i, i ∈ (maybeMove mc st f).queue ↔ i ∈ st.queue ∨
      (markedAt (maybeMove mc st f).colors mc i ∧ ¬ markedAt st.colors mc i)) ∧
    (∀ i, i ∈ (maybeMove mc st f).old ↔ markedAt (maybeMove mc st f).colors mc i) ∧
    (maybeMove mc st f).old.Nodup ∧ (maybeMove mc st f).active.Nodup ∧
    (∀ i, i ∈ (maybeMove mc st f).active ↔ i ∈ A ∧
      ¬ markedAt (maybeMove mc st f).colors mc i) := by
  by_cases hu : unmarkedAt st.colors mc f = true
  · obtain ⟨hfl, hfm⟩ := (unmarkedAt_iff st.colors mc f).mp hu
    simp only [maybeMove, hu, if_true, move_object_to_head]
    refine ⟨by simp, ?_, ?_, ?_, ?_, ?_, ?_⟩
    · intro i
      exact markedAt_set st.colors mc f i
    · intro i
      rw [List.mem_append, List.mem_singleton, markedAt_set]
      constructor
      · rintro (hq | he)
        · exact Or.inl hq
        · exact Or.inr ⟨Or.inr ⟨he, hfl⟩, by rw [he]; exact hfm⟩
      · rintro (hq | ⟨hm | ⟨he, _⟩, hnm⟩)
        · exact Or.inl hq
        · exact absurd hm hnm
        · exact Or.inr he
    · intro i
      rw [List.mem_cons, markedAt_set, hold]
      constructor
      · rintro (he | hm)
        · exact Or.inr ⟨he, hfl⟩
        · exact Or.inl hm
      · rintro (hm | ⟨he, _⟩)
        · exact Or.inr hm
        · exact Or.inl he
    · exact List.nodup_cons.mpr ⟨fun hin => hfm ((hold f).mp hin), holdnd⟩
    · exact hactnd.erase f
    · intro i
      rw [hactnd.mem_erase_iff, hact, markedAt_set]
      constructor
      · rintro ⟨hne, hA, hnm⟩
        exact ⟨hA, by rintro (hm | ⟨he, _⟩); exact hnm hm; exact hne he⟩
      · rintro ⟨hA, hnm⟩
        refine ⟨?_, hA, fun hm => hnm (Or.inl hm)⟩
        intro he
        exact hnm (Or.inr ⟨he, hfl⟩)
  · have hcase := (unmarkedAt_iff st.colors mc f).not.mp (by simpa using hu)
    push_neg at hcase
    simp only [maybeMove, hu, if_false]
    refine ⟨rfl, ?_, ?_, hold, holdnd, hactnd, hact⟩
    · intro i
      constructor
      · exact Or.inl
      · rintro (hm | ⟨he, hfl⟩)
        · exact hm
        · rw [he]; exact hcase hfl
    · intro i
      constructor
      · exact Or.inl
      · rintro (hq | ⟨hm, hnm⟩)
        · exact hq
        · exact absurd hm hnm

/-- Helper: marking an unmarked cell lowers the unmarked count by one. -/
theorem unmarkedCount_set_eq (mc : Nat) : ∀ (colors : List Nat) (f : Nat),
    unmarkedAt colors mc f = true →
    unmarkedCount (colors.set f mc) mc + 1 = unmarkedCount colors mc := by
  intro colors
  induction colors with
  | nil => intro f hf; simp [unmarkedAt] at hf
  | cons c cs ih =>
    intro f hf
    cases f with
    | zero =>
      simp only [unmarkedAt, List.getElem?_cons_zero] at hf
      simp only [List.set]
      simp only [unmarkedCount, List.filter]
      have hcne : (c != mc) = true := by simpa using hf
      simp [hcne]
    | succ f =>
      simp only [unmarkedAt, List.getElem?_cons_succ] at hf
      have := ih f hf
      simp only [List.set, unmarkedCount, List.filter] at *
      cases hb : (c != mc) <;> simp [hb] at * <;> omega

/-- Helper: one maybe_move never raises the scan measure. -/
theorem maybeMove_measure_le (mc : Nat) (t : ScanState) (f : Nat) :
    scanMeasure mc (maybeMove mc t f) ≤ scanMeasure mc t := by
  by_cases hu : unmarkedAt t.colors mc f = true
  · have := unmarkedCount_set_eq mc t.colors f hu
    simp [maybeMove, hu, move_object_to_head, scanMeasure]
    omega
  · simp [maybeMove, hu]

/-- Helper: a fold of maybe_move never raises the scan measure. -/
theorem foldl_maybeMove_measure (mc : Nat) : ∀ (fs : List Nat) (t : ScanState),
    scanMeasure mc (fs.foldl (maybeMove mc) t) ≤ scanMeasure mc t := by
  intro fs
  induction fs with
  | nil => intro t; simp
  | cons f fs ih =>
    intro t
    calc scanMeasure mc ((f :: fs).foldl (maybeMove mc) t)
        = scanMeasure mc (fs.foldl (maybeMove mc) (maybeMove mc t f)) := by simp
      _ ≤ scanMeasure mc (maybeMove mc t f) := ih _
      _ ≤ scanMeasure mc t := maybeMove_measure_le mc t f

/-- Helper: the fold of maybe_move over a field list, characterised
against the collect invariants. -/
theorem foldl_maybeMove_spec (mc : Nat) (A : List Nat) : ∀ (F : List Nat) (st : ScanState),
    (∀ i, i ∈ st.old ↔ markedAt st.colors mc i) →
    st.old.Nodup → st.active.Nodup →
    (∀ i, i ∈ st.active ↔ i ∈ A ∧ ¬ markedAt st.colors mc i) →
    ((F.foldl (maybeMove mc) st).colors.length = st.colors.length ∧
     (∀ i, markedAt (F.foldl (maybeMove mc) st).colors mc i ↔
       markedAt st.colors mc i ∨ (i ∈ F ∧ i < st.colors.length)) ∧
     (∀ i, i ∈ (F.foldl (maybeMove mc) st).queue ↔ i ∈ st.queue ∨
       (markedAt (F.foldl (maybeMove mc) st).colors mc i ∧ ¬ markedAt st.colors mc i)) ∧
     (∀ i, i ∈ (F.foldl (maybeMove mc) st).old ↔
       markedAt (F.foldl (maybeMove mc) st).colors mc i) ∧
     (F.foldl (maybeMove mc) st).old.Nodup ∧
     (F.foldl (maybeMove mc) st).active.Nodup ∧
     (∀ i, i ∈ (F.foldl (maybeMove mc) st).active ↔ i ∈ A ∧
       ¬ markedAt (F.foldl (maybeMove mc) st).colors mc i)) := by
  intro F
  induction F with
  | nil =>
    intro st hold holdnd hactnd hact
    refine ⟨rfl, ?_, ?_, hold, holdnd, hactnd, hact⟩
    · intro i
      constructor
      · exact Or.inl
      · rintro (hm | ⟨hiF, _⟩)
        · exact hm
        · exact absurd hiF (List.not_mem_nil i)
    · intro i
      constructor
      · exact Or.inl
      · rintro (hq | ⟨hm, hnm⟩)
        · exact hq
        · exact absurd hm hnm
  | cons f F ih =>
    intro st hold holdnd hactnd hact
    obtain ⟨hlen0, hmark0, hqueue0, hold0, holdnd0, hactnd0, hact0⟩ :=
      maybeMove_spec mc A st f hold holdnd hactnd hact
    obtain ⟨hlen1, hmark1, hqueue1, hold1, holdnd1, hactnd1, hact1⟩ :=
      ih (maybeMove mc st f) hold0 holdnd0 hactnd0 hact0
    have hfold : (f :: F).foldl (maybeMove mc) st = F.foldl (maybeMove mc) (maybeMove mc st f) := rfl
    rw [hfold]
    have hmono0 : ∀ i, markedAt st.colors mc i → markedAt (maybeMove mc st f).colors mc i :=
      fun i hi => (hmark0 i).mpr (Or.inl hi)
    have hmono1 : ∀ i, markedAt (maybeMove mc st f).colors mc i →
        markedAt (F.foldl (maybeMove mc) (maybeMove mc st f)).colors mc i :=
      fun i hi => (hmark1 i).mpr (Or.inl hi)
    refine ⟨hlen1.trans hlen0, ?_, ?_, hold1, holdnd1, hactnd1, ?_⟩
    · intro i
      rw [hmark1 i, hmark0 i, hlen0]
      constructor
      · rintro ((hm | ⟨he, hfl⟩) | ⟨hiF, hil⟩)
        · exact Or.inl hm
        · exact Or.inr ⟨List.mem_cons.mpr (Or.inl he), by omega⟩
        · exact Or.inr ⟨List.mem_cons_of_mem f hiF, hil⟩
      · rintro (hm | ⟨hiC, hil⟩)
        · exact Or.inl (Or.inl hm)
        · rcases List.mem_cons.mp hiC with he | hiF
          · exact Or.inl (Or.inr ⟨he, by omega⟩)
          · exact Or.inr ⟨hiF, hil⟩
    · intro i
      rw [hqueue1 i, hqueue0 i]
      constructor
      · rintro ((hq | ⟨hm0, hnm⟩) | ⟨hm1, hnm0⟩)
        · exact Or.inl hq
        · exact Or.inr ⟨hmono1 i hm0, hnm⟩
        · refine Or.inr ⟨hm1, fun hm => hnm0 (hmono0 i hm)⟩
      · rintro (hq | ⟨hm1, hnm⟩)
        · exact Or.inl (Or.inl hq)
        · by_cases hm0 : markedAt (maybeMove mc st f).colors mc i
          · exact Or.inl (Or.inr ⟨hm0, hnm⟩)
          · exact Or.inr ⟨hm1, hm0⟩
    · intro i
      rw [hact1 i]

/-- Helper: the scan loop stops on an empty queue. -/
theorem scanLoop_unfold_nil (data : List Obj) (mc : Nat) (st : ScanState)
    (h : st.queue = []) : scanLoop data mc st = st := by
  rw [scanLoop.eq_def]
  split
  · rfl
  · rename_i q rest hq
    rw [h] at hq
    exact List.noConfusion hq

/-- Helper: the scan loop dequeues the next moved cell and folds
maybe_move over its fields. -/
theorem scanLoop_unfold_cons (data : List Obj) (mc : Nat) (st : ScanState)
    (q : Nat) (rest : List Nat) (h : st.queue = q :: rest) :
    scanLoop data mc st =
      scanLoop data mc
        ((scanFields (data.getD q Obj.emptyList)).foldl (maybeMove mc)
          { st with queue := rest }) := by
  rw [scanLoop.eq_def]
  split
  · rename_i hq
    rw [h] at hq
    exact List.noConfusion hq
  · rename_i q2 rest2 hq
    rw [h] at hq
    injection hq with h1 h2
    rw [h1, h2]

/-- Helper: the full invariant carried by the scan loop of
move_reachable: the loop drains the queue; colors only gain the mark
color; every cell marked during the loop is reachable from a queued
cell; afterwards the marked set is closed under in-range field scanning;
and the Old and Active lists track the marked and unmarked cells. -/
theorem scanLoop_spec (data : List Obj) (mc : Nat) (A : List Nat) : ∀ (μ : Nat) (st : ScanState),
    scanMeasure mc st ≤ μ →
    (∀ i, markedAt st.colors mc i → i ∈ st.queue ∨
      (∀ f ∈ scanFields (data.getD i Obj.emptyList), f < st.colors.length →
        markedAt st.colors mc f)) →
    (∀ i, i ∈ st.old ↔ markedAt st.colors mc i) →
    st.old.Nodup → st.active.Nodup →
    (∀ i, i ∈ st.active ↔ i ∈ A ∧ ¬ markedAt st.colors mc i) →
    ((scanLoop data mc st).queue = [] ∧
     (scanLoop data mc st).colors.length = st.colors.length ∧
     (∀ i, markedAt st.colors mc i → markedAt (scanLoop data mc st).colors mc i) ∧
     (∀ i, markedAt (scanLoop data mc st).colors mc i →
       markedAt st.colors mc i ∨ ∃ q ∈ st.queue, Reach data q i) ∧
     (∀ i, markedAt (scanLoop data mc st).colors mc i →
       ∀ f ∈ scanFields (data.getD i Obj.emptyList), f < st.colors.length →
         markedAt (scanLoop data mc st).colors mc f) ∧
     (∀ i, i ∈ (scanLoop data mc st).old ↔ markedAt (scanLoop data mc st).colors mc i) ∧
     (scanLoop data mc st).old.Nodup ∧
     (scanLoop data mc st).active.Nodup ∧
     (∀ i, i ∈ (scanLoop data mc st).active ↔ i ∈ A ∧
       ¬ markedAt (scanLoop data mc st).colors mc i)) := by
  intro μ
  induction μ with
  | zero =>
    intro st hμ hclosed hold holdnd hactnd hact
    have hqe : st.queue = [] := by
      have : st.queue.length = 0 := by
        have := hμ
        rw [scanMeasure] at this
        omega
      exact List.eq_nil_of_length_eq_zero this
    rw [scanLoop_unfold_nil data mc st hqe]
    refine ⟨hqe, rfl, fun i hi => hi, fun i hi => Or.inl hi, ?_, hold, holdnd, hactnd, hact⟩
    intro i hi f hf hfl
    rcases hclosed i hi with hiq | hsc
    · rw [hqe] at hiq
      exact absurd hiq (List.not_mem_nil i)
    · exact hsc f hf hfl
  | succ μ ih =>
    intro st hμ hclosed hold holdnd hactnd hact
    rcases hq : st.queue with _ | ⟨q, rest⟩
    · rw [scanLoop_unfold_nil data mc st hq]
      refine ⟨hq, rfl, fun i hi => hi, fun i hi => Or.inl hi, ?_, hold, holdnd, hactnd, hact⟩
      intro i hi f hf hfl
      rcases hclosed i hi with hiq | hsc
      · rw [hq] at hiq
        exact absurd hiq (List.not_mem_nil i)
      · exact hsc f hf hfl
    · rw [scanLoop_unfold_cons data mc st q rest hq]
      obtain ⟨hlen1, hmark1, hqueue1, hold1, holdnd1, hactnd1, hact1⟩ :=
        foldl_maybeMove_spec mc A (scanFields (data.getD q Obj.emptyList))
          { st with queue := rest } hold holdnd hactnd hact
      have hμ1 : scanMeasure mc
          ((scanFields (data.getD q Obj.emptyList)).foldl (maybeMove mc)
            { st with queue := rest }) ≤ μ := by
        have h1 := foldl_maybeMove_measure mc (scanFields (data.getD q Obj.emptyList))
          { st with queue := rest }
        have h2 : scanMeasure mc { st with queue := rest } + 1 = scanMeasure mc st := by
          simp [scanMeasure, hq]
          omega
        omega
      have hclosed1 : ∀ i, markedAt
          ((scanFields (data.getD q Obj.emptyList)).foldl (maybeMove mc)
            { st with queue := rest }).colors mc i →
          i ∈ ((scanFields (data.getD q Obj.emptyList)).foldl (maybeMove mc)
            { st with queue := rest }).queue ∨
          (∀ f ∈ scanFields (data.getD i Obj.emptyList),
            f < ((scanFields (data.getD q Obj.emptyList)).foldl (maybeMove mc)
              { st with queue := rest }).colors.length →
            markedAt ((scanFields (data.getD q Obj.emptyList)).foldl (maybeMove mc)
              { st with queue := rest }).colors mc f) := by
        intro i hi
        by_cases hi0 : markedAt st.colors mc i
        · rcases hclosed i hi0 with hiq | hsc
          · rw [hq] at hiq
            rcases List.mem_cons.mp hiq with he | hir
            · subst he
              refine Or.inr (fun f hf hfl => ?_)
              rw [hlen1] at hfl
              exact (hmark1 f).mpr (Or.inr ⟨hf, hfl⟩)
            · exact Or.inl ((hqueue1 i).mpr (Or.inl hir))
          · refine Or.inr (fun f hf hfl => ?_)
            rw [hlen1] at hfl
            exact (hmark1 f).mpr (Or.inl (hsc f hf hfl))
        · exact Or.inl ((hqueue1 i).mpr (Or.inr ⟨hi, hi0⟩))
      obtain ⟨c1, c2, c3, c4, c5, c6, c7, c8, c9⟩ :=
        ih ((scanFields (data.getD q Obj.emptyList)).foldl (maybeMove mc)
          { st with queue := rest }) hμ1 hclosed1 hold1 holdnd1 hactnd1 hact1
      refine ⟨c1, by rw [c2, hlen1], ?_, ?_, ?_, c6, c7, c8, c9⟩
      · intro i hi
        exact c3 i ((hmark1 i).mpr (Or.inl hi))
      · intro i hi
        rcases c4 i hi with hi1 | ⟨p, hp, hreach⟩
        · rcases (hmark1 i).mp hi1 with h0 | ⟨hiF, _⟩
          · exact Or.inl h0
          · refine Or.inr ⟨q, List.mem_cons.mpr (Or.inl rfl), ?_⟩
            exact Reach.tail (Reach.refl q) hiF
        · rcases (hqueue1 p).mp hp with hpr | ⟨hpm, hpnm⟩
          · exact Or.inr ⟨p, List.mem_cons_of_mem q hpr, hreach⟩
          · rcases (hmark1 p).mp hpm with h0 | ⟨hpF, _⟩
            · exact absurd h0 hpnm
            · refine Or.inr ⟨q, List.mem_cons.mpr (Or.inl rfl), ?_⟩
              exact Reach_trans data q p i (Reach.tail (Reach.refl q) hpF) hreach
      · intro i hi f hf hfl
        refine c5 i hi f hf ?_
        rw [hlen1]
        exact hfl

/-- Helper: one move_reachable call from a quiescent scan state (empty
queue, marked set closed under field scanning): it marks exactly the
cells reachable from the root on top of what was already marked, keeps
the closure, and keeps the Old and Active lists tracking the marked and
unmarked cells. -/
theorem move_reachable_spec (data : List Obj) (mc : Nat) (A : List Nat)
    (st : ScanState) (root : Option Nat)
    (hqe : st.queue = [])
    (hclosed : ∀ i, markedAt st.colors mc i →
      ∀ f ∈ scanFields (data.getD i Obj.emptyList), f < st.colors.length →
        markedAt st.colors mc f)
    (hold : ∀ i, i ∈ st.old ↔ markedAt st.colors mc i)
    (holdnd : st.old.Nodup) (hactnd : st.active.Nodup)
    (hact : ∀ i, i ∈ st.active ↔ i ∈ A ∧ ¬ markedAt st.colors mc i) :
    ((move_reachable data mc st root).queue = [] ∧
     (move_reachable data mc st root).colors.length = st.colors.length ∧
     (∀ i, markedAt st.colors mc i → markedAt (move_reachable data mc st root).colors mc i) ∧
     (∀ i, markedAt (move_reachable data mc st root).colors mc i →
       markedAt st.colors mc i ∨ ∃ r, root = some r ∧ Reach data r i) ∧
     (∀ i, markedAt (move_reachable data mc st root).colors mc i →
       ∀ f ∈ scanFields (data.getD i Obj.emptyList), f < st.colors.length →
         markedAt (move_reachable data mc st root).colors mc f) ∧
     (∀ r, root = some r → r < st.colors.length →
       markedAt (move_reachable data mc st root).colors mc r) ∧
     (∀ i, i ∈ (move_reachable data mc st root).old ↔
       markedAt (move_reachable data mc st root).colors mc i) ∧
     (move_reachable data mc st root).old.Nodup ∧
     (move_reachable data mc st root).active.Nodup ∧
     (∀ i, i ∈ (move_reachable data mc st root).active ↔ i ∈ A ∧
       ¬ markedAt (move_reachable data mc st root).colors mc i)) := by
  rcases root with _ | r
  · have hmr : move_reachable data mc st none = st := rfl
    rw [hmr]
    refine ⟨hqe, rfl, fun i hi => hi, fun i hi => Or.inl hi, hclosed, ?_, hold, holdnd, hactnd, hact⟩
    intro r hr
    exact Option.noConfusion hr
  · have hmr : move_reachable data mc st (some r) =
        if unmarkedAt st.colors mc r then
          scanLoop data mc
            { colors := st.colors.set r mc, active := st.active.erase r,
              old := r :: st.old, queue := [r] }
        else st := rfl
    rw [hmr]
    by_cases hu : unmarkedAt st.colors mc r = true
    · obtain ⟨hrl, hrm⟩ := (unmarkedAt_iff st.colors mc r).mp hu
      rw [if_pos hu]
      have hlen0 : (st.colors.set r mc).length = st.colors.length := by simp
      have hclosed0 : ∀ i, markedAt (st.colors.set r mc) mc i →
          i ∈ [r] ∨ (∀ f ∈ scanFields (data.getD i Obj.emptyList),
            f < (st.colors.set r mc).length → markedAt (st.colors.set r mc) mc f) := by
        intro i hi
        rcases (markedAt_set st.colors mc r i).mp hi with hm | ⟨he, _⟩
        · refine Or.inr (fun f hf hfl => ?_)
          rw [hlen0] at hfl
          exact (markedAt_set st.colors mc r f).mpr (Or.inl (hclosed i hm f hf hfl))
        · rw [he]
          exact Or.inl (List.mem_cons.mpr (Or.inl rfl))
      have hold0 : ∀ i, i ∈ r :: st.old ↔ markedAt (st.colors.set r mc) mc i := by
        intro i
        rw [List.mem_cons, markedAt_set, hold]
        constructor
        · rintro (he | hm)
          · exact Or.inr ⟨he, hrl⟩
          · exact Or.inl hm
        · rintro (hm | ⟨he, _⟩)
          · exact Or.inr hm
          · exact Or.inl he
      have holdnd0 : (r :: st.old).Nodup :=
        List.nodup_cons.mpr ⟨fun hin => hrm ((hold r).mp hin), holdnd⟩
      have hact0 : ∀ i, i ∈ st.active.erase r ↔ i ∈ A ∧
          ¬ markedAt (st.colors.set r mc) mc i := by
        intro i
        rw [hactnd.mem_erase_iff, hact, markedAt_set]
        constructor
        · rintro ⟨hne, hA, hnm⟩
          exact ⟨hA, by rintro (hm | ⟨he, _⟩); exact hnm hm; exact hne he⟩
        · rintro ⟨hA, hnm⟩
          refine ⟨?_, hA, fun hm => hnm (Or.inl hm)⟩
          intro he
          exact hnm (Or.inr ⟨he, hrl⟩)
      obtain ⟨c1, c2, c3, c4, c5, c6, c7, c8, c9⟩ :=
        scanLoop_spec data mc A
          (scanMeasure mc ⟨st.colors.set r mc, st.active.erase r, r :: st.old, [r]⟩)
          ⟨st.colors.set r mc, st.active.erase r, r :: st.old, [r]⟩
          (le_refl _) hclosed0 hold0 holdnd0 (hactnd.erase r) hact0
      refine ⟨c1, by rw [c2]; exact hlen0, ?_, ?_, ?_, ?_, c6, c7, c8, c9⟩
      · intro i hi
        exact c3 i ((markedAt_set st.colors mc r i).mpr (Or.inl hi))
      · intro i hi
        rcases c4 i hi with hi0 | ⟨p, hp, hreach⟩
        · rcases (markedAt_set st.colors mc r i).mp hi0 with hm | ⟨he, _⟩
          · exact Or.inl hm
          · exact Or.inr ⟨r, rfl, by rw [he]; exact Reach.refl r⟩
        · rcases List.mem_singleton.mp hp with he
          exact Or.inr ⟨r, rfl, he ▸ hreach⟩
      · intro i hi f hf hfl
        refine c5 i hi f hf ?_
        rw [hlen0]
        exact hfl
      · intro r2 hr2 _
        injection hr2 with hr2e
        refine c3 r2 ?_
        exact (markedAt_set st.colors mc r r2).mpr (Or.inr ⟨hr2e.symm, hrl⟩)
    · rw [if_neg hu]
      refine ⟨hqe, rfl, fun i hi => hi, fun i hi => Or.inl hi, hclosed, ?_, hold, holdnd, hactnd, hact⟩
      intro r2 hr2 hr2l
      injection hr2 with hr2e
      have hcase := (unmarkedAt_iff st.colors mc r).not.mp (by simpa using hu)
      push_neg at hcase
      rw [← hr2e]
      exact hcase (hr2e ▸ hr2l)

/-- Helper: the fold of move_reachable over the Roots stack: afterwards
every in-range root is marked, every newly marked cell is reachable from
some root, the marked set is closed under in-range field scanning, and
Old and Active track the marked and unmarked cells. -/
theorem foldl_move_reachable_spec (data : List Obj) (mc : Nat) (A : List Nat) :
    ∀ (roots : List (Option Nat)) (st : ScanState),
    st.queue = [] →
    (∀ i, markedAt st.colors mc i →
      ∀ f ∈ scanFields (data.getD i Obj.emptyList), f < st.colors.length →
        markedAt st.colors mc f) →
    (∀ i, i ∈ st.old ↔ markedAt st.colors mc i) →
    st.old.Nodup → st.active.Nodup →
    (∀ i, i ∈ st.active ↔ i ∈ A ∧ ¬ markedAt st.colors mc i) →
    ((roots.foldl (move_reachable data mc) st).queue = [] ∧
     (roots.foldl (move_reachable data mc) st).colors.length = st.colors.length ∧
     (∀ i, markedAt st.colors mc i →
       markedAt (roots.foldl (move_reachable data mc) st).colors mc i) ∧
     (∀ i, markedAt (roots.foldl (move_reachable data mc) st).colors mc i →
       markedAt st.colors mc i ∨ ∃ r, (some r) ∈ roots ∧ Reach data r i) ∧
     (∀ i, markedAt (roots.foldl (move_reachable data mc) st).colors mc i →
       ∀ f ∈ scanFields (data.getD i Obj.emptyList), f < st.colors.length →
         markedAt (roots.foldl (move_reachable data mc) st).colors mc f) ∧
     (∀ r, (some r) ∈ roots → r < st.colors.length →
       markedAt (roots.foldl (move_reachable data mc) st).colors mc r) ∧
     (∀ i, i ∈ (roots.foldl (move_reachable data mc) st).old ↔
       markedAt (roots.foldl (move_reachable data mc) st).colors mc i) ∧
     (roots.foldl (move_reachable data mc) st).old.Nodup ∧
     (roots.foldl (move_reachable data mc) st).active.Nodup ∧
     (∀ i, i ∈ (roots.foldl (move_reachable data mc) st).active ↔ i ∈ A ∧
       ¬ markedAt (roots.foldl (move_reachable data mc) st).colors mc i)) := by
  intro roots
  induction roots with
  | nil =>
    intro st hqe hclosed hold holdnd hactnd hact
    refine ⟨hqe, rfl, fun i hi => hi, fun i hi => Or.inl hi, hclosed, ?_, hold, holdnd, hactnd, hact⟩
    intro r hr
    exact absurd hr (List.not_mem_nil _)
  | cons root roots ih =>
    intro st hqe hclosed hold holdnd hactnd hact
    obtain ⟨m1, m2, m3, m4, m5, m6, m7, m8, m9, m10⟩ :=
      move_reachable_spec data mc A st root hqe hclosed hold holdnd hactnd hact
    have m5x : ∀ i, markedAt (move_reachable data mc st root).colors mc i →
        ∀ f ∈ scanFields (data.getD i Obj.emptyList),
          f < (move_reachable data mc st root).colors.length →
            markedAt (move_reachable data mc st root).colors mc f := by
      intro i hi f hf hfl
      refine m5 i hi f hf ?_
      rw [← m2]
      exact hfl
    obtain ⟨c1, c2, c3, c4, c5, c6, c7, c8, c9, c10⟩ :=
      ih (move_reachable data mc st root) m1 m5x m7 m8 m9 m10
    have hfold : (root :: roots).foldl (move_reachable data mc) st =
        roots.foldl (move_reachable data mc) (move_reachable data mc st root) := rfl
    rw [hfold]
    refine ⟨c1, c2.trans m2, ?_, ?_, ?_, ?_, c7, c8, c9, ?_⟩
    · intro i hi
      exact c3 i (m3 i hi)
    · intro i hi
      rcases c4 i hi with hi0 | ⟨r, hr, hreach⟩
      · rcases m4 i hi0 with hm | ⟨r, hre, hreach⟩
        · exact Or.inl hm
        · exact Or.inr ⟨r, List.mem_cons.mpr (Or.inl hre.symm), hreach⟩
      · exact Or.inr ⟨r, List.mem_cons_of_mem root hr, hreach⟩
    · intro i hi f hf hfl
      refine c5 i hi f hf ?_
      rw [m2]
      exact hfl
    · intro r hr hrl
      rcases List.mem_cons.mp hr with hre | hrr
      · refine c3 r ?_
        exact m6 r hre.symm hrl
      · refine c6 r hrr ?_
        rw [m2]
        exact hrl
    · intro i
      rw [c10 i]

/-- Helper: a set either leaves an entry alone or writes the new value. -/
theorem getElem?_set_or (l : List Nat) (f a i : Nat) :
    (l.set f a)[i]? = l[i]? ∨ (l.set f a)[i]? = some a := by
  by_cases hif : i = f
  · subst hif
    by_cases hl : i < l.length
    · exact Or.inr (by simp [List.getElem?_set_self hl])
    · refine Or.inl ?_
      rw [List.set_eq_of_length_le (by omega)]
  · exact Or.inl (by rw [List.getElem?_set_ne (fun he => hif he.symm)])

/-- Helper: maybe_move writes only the mark color. -/
theorem maybeMove_colors_or (mc : Nat) (st : ScanState) (f i : Nat) :
    (maybeMove mc st f).colors[i]? = st.colors[i]? ∨
    (maybeMove mc st f).colors[i]? = some mc := by
  by_cases hu : unmarkedAt st.colors mc f = true
  · simp only [maybeMove, hu, if_true, move_object_to_head]
    exact getElem?_set_or st.colors f mc i
  · simp only [maybeMove, hu, if_false]
    exact Or.inl rfl

/-- Helper: a fold of maybe_move writes only the mark color. -/
theorem foldl_maybeMove_colors_or (mc : Nat) : ∀ (F : List Nat) (st : ScanState) (i : Nat),
    (F.foldl (maybeMove mc) st).colors[i]? = st.colors[i]? ∨
    (F.foldl (maybeMove mc) st).colors[i]? = some mc := by
  intro F
  induction F with
  | nil => intro st i; exact Or.inl rfl
  | cons f F ih =>
    intro st i
    have hfold : (f :: F).foldl (maybeMove mc) st =
        F.foldl (maybeMove mc) (maybeMove mc st f) := rfl
    rw [hfold]
    rcases ih (maybeMove mc st f) i with h0 | h0
    · rcases maybeMove_colors_or mc st f i with h1 | h1
      · exact Or.inl (h0.trans h1)
      · exact Or.inr (h0.trans h1)
    · exact Or.inr h0

/-- Helper: the scan loop writes only the mark color. -/
theorem scanLoop_colors_or (data : List Obj) (mc : Nat) : ∀ (μ : Nat) (st : ScanState),
    scanMeasure mc st ≤ μ → ∀ i : Nat,
    (scanLoop data mc st).colors[i]? = st.colors[i]? ∨
    (scanLoop data mc st).colors[i]? = some mc := by
  intro μ
  induction μ with
  | zero =>
    intro st hμ i
    have hqe : st.queue = [] := by
      have : st.queue.length = 0 := by
        rw [scanMeasure] at hμ
        omega
      exact List.eq_nil_of_length_eq_zero this
    rw [scanLoop_unfold_nil data mc st hqe]
    exact Or.inl rfl
  | succ μ ih =>
    intro st hμ i
    rcases hq : st.queue with _ | ⟨q, rest⟩
    · rw [scanLoop_unfold_nil data mc st hq]
      exact Or.inl rfl
    · rw [scanLoop_unfold_cons data mc st q rest hq]
      have hμ1 : scanMeasure mc
          ((scanFields (data.getD q Obj.emptyList)).foldl (maybeMove mc)
            { st with queue := rest }) ≤ μ := by
        have h1 := foldl_maybeMove_measure mc (scanFields (data.getD q Obj.emptyList))
          { st with queue := rest }
        have h2 : scanMeasure mc { st with queue := rest } + 1 = scanMeasure mc st := by
          simp [scanMeasure, hq]
          omega
        omega
      rcases ih ((scanFields (data.getD q Obj.emptyList)).foldl (maybeMove mc)
          { st with queue := rest }) hμ1 i with h0 | h0
      · rcases foldl_maybeMove_colors_or mc (scanFields (data.getD q Obj.emptyList))
            { st with queue := rest } i with h1 | h1
        · exact Or.inl (h0.trans h1)
        · exact Or.inr (h0.trans h1)
      · exact Or.inr h0

/-- Helper: move_reachable writes only the mark color. -/
theorem move_reachable_colors_or (data : List Obj) (mc : Nat) (st : ScanState)
    (root : Option Nat) (i : Nat) :
    (move_reachable data mc st root).colors[i]? = st.colors[i]? ∨
    (move_reachable data mc st root).colors[i]? = some mc := by
  rcases root with _ | r
  · exact Or.inl rfl
  · have hmr : move_reachable data mc st (some r) =
        if unmarkedAt st.colors mc r then
          scanLoop data mc
            { colors := st.colors.set r mc, active := st.active.erase r,
              old := r :: st.old, queue := [r] }
        else st := rfl
    rw [hmr]
    by_cases hu : unmarkedAt st.colors mc r = true
    · rw [if_pos hu]
      rcases scanLoop_colors_or data mc
          (scanMeasure mc ⟨st.colors.set r mc, st.active.erase r, r :: st.old, [r]⟩)
          ⟨st.colors.set r mc, st.active.erase r, r :: st.old, [r]⟩ (le_refl _) i with h0 | h0
      · rcases getElem?_set_or st.colors r mc i with h1 | h1
        · exact Or.inl (h0.trans h1)
        · exact Or.inr (h0.trans h1)
      · exact Or.inr h0
    · rw [if_neg hu]
      exact Or.inl rfl

/-- Helper: the fold of move_reachable over the roots writes only the
mark color. -/
theorem foldl_move_reachable_colors_or (data : List Obj) (mc : Nat) :
    ∀ (roots : List (Option Nat)) (st : ScanState) (i : Nat),
    (roots.foldl (move_reachable data mc) st).colors[i]? = st.colors[i]? ∨
    (roots.foldl (move_reachable data mc) st).colors[i]? = some mc := by
  intro roots
  induction roots with
  | nil => intro st i; exact Or.inl rfl
  | cons root roots ih =>
    intro st i
    have hfold : (root :: roots).foldl (move_reachable data mc) st =
        roots.foldl (move_reachable data mc) (move_reachable data mc st root) := rfl
    rw [hfold]
    rcases ih (move_reachable data mc st root) i with h0 | h0
    · rcases move_reachable_colors_or data mc st root i with h1 | h1
      · exact Or.inl (h0.trans h1)
      · exact Or.inr (h0.trans h1)
    · exact Or.inr h0

/-- Helper: the finalize loop splits the Finalizable stack by mark
color, keeping order: unmarked entries are finalized, marked entries
move to the next stack. -/
theorem finalize_pass_eq (colors : List Nat) (mc : Nat) : ∀ l : List Nat,
    finalize_pass colors mc l =
      (l.filter (fun i => ! decide (markedAt colors mc i)),
       l.filter (fun i => decide (markedAt colors mc i))) := by
  intro l
  induction l with
  | nil => rfl
  | cons i rest ih =>
    simp only [finalize_pass, ih]
    by_cases hm : markedAt colors mc i
    · have hm2 : colors[i]? = some mc := hm
      rw [if_pos hm2]
      simp [List.filter_cons, hm]
    · have hm2 : ¬ (colors[i]? = some mc) := hm
      rw [if_neg hm2]
      simp [List.filter_cons, hm]

/-- Helper: a getElem? hit makes the value a member. -/
theorem mem_of_getElem?_eq (l : List Nat) (i a : Nat) (h : l[i]? = some a) : a ∈ l := by
  have hl : i < l.length := by
    by_contra hge
    rw [List.getElem?_eq_none (by omega)] at h
    exact Option.noConfusion h
  have h2 : l[i] = a := by rwa [List.getElem?_eq_getElem hl, Option.some.injEq] at h
  rw [← h2]
  exact List.getElem_mem hl
  
/-- Helper: the full characterisation of the mark phase of
baker_collect under well-formedness: the cells marked with the advanced
color are exactly those reachable from the Roots stack; Old collects
exactly the marked cells and Active exactly the unmarked ones, each
without duplicates; and colors change only toward the mark color. -/
theorem baker_collect_core (s : GCState) (hwf : GCWF s) :
    ((baker_collect s).1.colors.length = s.colors.length ∧
     (∀ i, markedAt (baker_collect s).1.colors ((s.currentColor + 1) % 256) i ↔
       RootReachable s i) ∧
     (∀ i, i ∈ (baker_collect s).1.old ↔
       markedAt (baker_collect s).1.colors ((s.currentColor + 1) % 256) i) ∧
     (baker_collect s).1.old.Nodup ∧
     (baker_collect s).1.active.Nodup ∧
     (∀ i, i ∈ (baker_collect s).1.active ↔ i < s.data.length ∧
       ¬ markedAt (baker_collect s).1.colors ((s.currentColor + 1) % 256) i) ∧
     (∀ i : Nat, (baker_collect s).1.colors[i]? = s.colors[i]? ∨
       (baker_collect s).1.colors[i]? = some ((s.currentColor + 1) % 256))) := by
  obtain ⟨hcl, hfr, hroots, hnd, hrange, hcover, hfresh⟩ := hwf
  have hnomark : ∀ i, ¬ markedAt s.colors ((s.currentColor + 1) % 256) i := by
    intro i hm
    exact hfresh (mem_of_getElem?_eq s.colors i ((s.currentColor + 1) % 256) hm)
  have hclosed0 : ∀ i, markedAt s.colors ((s.currentColor + 1) % 256) i →
      ∀ f ∈ scanFields (s.data.getD i Obj.emptyList), f < s.colors.length →
        markedAt s.colors ((s.currentColor + 1) % 256) f := by
    intro i hm
    exact absurd hm (hnomark i)
  have hold0 : ∀ i, i ∈ ([] : List Nat) ↔
      markedAt s.colors ((s.currentColor + 1) % 256) i := by
    intro i
    constructor
    · intro h
      exact absurd h (List.not_mem_nil i)
    · intro h
      exact absurd h (hnomark i)
  have hact0 : ∀ i, i ∈ s.active ++ s.old ↔ i ∈ s.active ++ s.old ∧
      ¬ markedAt s.colors ((s.currentColor + 1) % 256) i := by
    intro i
    exact ⟨fun h => ⟨h, hnomark i⟩, fun h => h.1⟩
  obtain ⟨f1, f2, f3, f4, f5, f6, f7, f8, f9, f10⟩ :=
    foldl_move_reachable_spec s.data ((s.currentColor + 1) % 256) (s.active ++ s.old)
      s.roots ⟨s.colors, s.active ++ s.old, [], []⟩ rfl hclosed0 hold0
      (List.nodup_nil) hnd hact0
  have hbcol : (baker_collect s).1.colors =
      (s.roots.foldl (move_reachable s.data ((s.currentColor + 1) % 256))
        ⟨s.colors, s.active ++ s.old, [], []⟩).colors := rfl
  have hbold : (baker_collect s).1.old =
      (s.roots.foldl (move_reachable s.data ((s.currentColor + 1) % 256))
        ⟨s.colors, s.active ++ s.old, [], []⟩).old := rfl
  have hbact : (baker_collect s).1.active =
      (s.roots.foldl (move_reachable s.data ((s.currentColor + 1) % 256))
        ⟨s.colors, s.active ++ s.old, [], []⟩).active := rfl
  rw [hbcol, hbold, hbact]
  refine ⟨f2, ?_, f7, f8, f9, ?_, ?_⟩
  · intro i
    constructor
    · intro hm
      rcases f4 i hm with h0 | ⟨r, hr, hreach⟩
      · exact absurd h0 (hnomark i)
      · exact ⟨r, hr, hreach⟩
    · rintro ⟨r, hr, hreach⟩
      have hrl : r < s.colors.length := by
        have := hroots (some r) hr
        rw [rootOk] at this
        omega
      have hrm := f6 r hr hrl
      clear hclosed0 hold0 hact0 f1 f3 f4 f6 f7 f8 f9 f10
      induction hreach with
      | refl => exact hrm
      | tail hr2 hf ih =>
        rename_i b c2
        have hbm := ih
        have hbl : b < s.colors.length := by
          have h3 := markedAt_lt _ _ _ hbm
          rw [f2] at h3
          exact h3
        have hcl2 : c2 < s.colors.length := by
          have := hfr b (by omega) c2 hf
          omega
        exact f5 b hbm c2 hf hcl2
  · intro i
    rw [f10 i]
    constructor
    · rintro ⟨h1, h2⟩
      exact ⟨hrange i h1, h2⟩
    · rintro ⟨h1, h2⟩
      exact ⟨hcover i h1, h2⟩
  · intro i
    exact foldl_move_reachable_colors_or s.data ((s.currentColor + 1) % 256) s.roots
      ⟨s.colors, s.active ++ s.old, [], []⟩ i

/-- Helper: a collection preserves well-formedness, provided no stale
cell already carries the color the following collection will mark with
(current color plus three, the only clause not guaranteed by the
collector itself). -/
theorem GCWF_baker_collect (s : GCState) (hwf : GCWF s)
    (hz : ((s.currentColor + 3) % 256) ∉ s.colors) : GCWF (baker_collect s).1 := by
  obtain ⟨g1, g2, g3, g4, g5, g6, g7⟩ := baker_collect_core s hwf
  obtain ⟨hcl, hfr, hroots, hnd, hrange, hcover, hfresh⟩ := hwf
  have hdata : (baker_collect s).1.data = s.data := rfl
  have hrootsF : (baker_collect s).1.roots = s.roots := rfl
  have hcc : (baker_collect s).1.currentColor = ((s.currentColor + 1) % 256 + 1) % 256 := rfl
  refine ⟨?_, ?_, ?_, ?_, ?_, ?_, ?_⟩
  · rw [hdata, g1, hcl]
  · rw [hdata]
    exact hfr
  · rw [hdata, hrootsF]
    exact hroots
  · refine List.Nodup.append g5 g4 ?_
    intro a ha hao
    have h1 := (g6 a).mp ha
    exact h1.2 ((g3 a).mp hao)
  · intro i hi
    rw [hdata]
    rcases List.mem_append.mp hi with hia | hio
    · exact ((g6 i).mp hia).1
    · have hm := (g3 i).mp hio
      have h3 := markedAt_lt _ _ _ hm
      rw [g1, hcl] at h3
      exact h3
  · intro i hi
    rw [hdata] at hi
    by_cases hm : markedAt (baker_collect s).1.colors ((s.currentColor + 1) % 256) i
    · exact List.mem_append.mpr (Or.inr ((g3 i).mpr hm))
    · exact List.mem_append.mpr (Or.inl ((g6 i).mpr ⟨hi, hm⟩))
  · rw [hcc]
    intro hmem
    have hval : (((s.currentColor + 1) % 256 + 1) % 256 + 1) % 256 = (s.currentColor + 3) % 256 := by
      omega
    rw [hval] at hmem
    obtain ⟨j, hj⟩ := List.mem_iff_getElem?.mp hmem
    rcases g7 j with h0 | h0
    · rw [h0] at hj
      exact hz (mem_of_getElem?_eq s.colors j ((s.currentColor + 3) % 256) hj)
    · rw [h0] at hj
      have := Option.some.inj hj
      omega

/-- C3: after baker_collect, every object reachable from a Roots entry
is on the Old list and carries the color one below the (twice advanced)
current color, Next_Free_Object is the recycled Active list (so it
points at its head cell), and the returned free count is the length of
the Active list (src/gc.c:465-507, 380-447). -/
theorem baker_collect_reachable_old (s : GCState) (hwf : GCWF s) :
    (∀ i, RootReachable s i →
      (i ∈ (baker_collect s).1.old ∧
       (baker_collect s).1.colors[i]? =
         some (((baker_collect s).1.currentColor + 255) % 256))) ∧
    (baker_collect s).1.nextFree = (baker_collect s).1.active ∧
    (baker_collect s).2 = (baker_collect s).1.active.length := by
  obtain ⟨g1, g2, g3, g4, g5, g6, g7⟩ := baker_collect_core s hwf
  refine ⟨?_, rfl, rfl⟩
  intro i hreach
  have hm := (g2 i).mpr hreach
  refine ⟨(g3 i).mpr hm, ?_⟩
  have hcc : (baker_collect s).1.currentColor = ((s.currentColor + 1) % 256 + 1) % 256 := rfl
  rw [markedAt] at hm
  rw [hm, hcc]
  have hval : (((s.currentColor + 1) % 256 + 1) % 256 + 255) % 256 = (s.currentColor + 1) % 256 := by
    omega
  rw [hval]

/-- C5: collections are idempotent up to the color toggles: starting
from a well-formed state whose cells do not already carry the next
cycle's mark color, a second baker_collect with no allocation in
between leaves the membership of the Old list unchanged and returns the
same free count as the first (src/gc.c:465-507). -/
theorem baker_collect_idempotent (s : GCState) (hwf : GCWF s)
    (hz : ((s.currentColor + 3) % 256) ∉ s.colors) :
    (∀ i, i ∈ (baker_collect (baker_collect s).1).1.old ↔ i ∈ (baker_collect s).1.old) ∧
    (baker_collect (baker_collect s).1).2 = (baker_collect s).2 := by
  have hwf1 := GCWF_baker_collect s hwf hz
  obtain ⟨g1, g2, g3, g4, g5, g6, g7⟩ := baker_collect_core s hwf
  obtain ⟨k1, k2, k3, k4, k5, k6, k7⟩ := baker_collect_core (baker_collect s).1 hwf1
  have hrr : ∀ i, RootReachable (baker_collect s).1 i ↔ RootReachable s i := by
    intro i
    exact Iff.rfl
  have hdlen : (baker_collect s).1.data.length = s.data.length := rfl
  constructor
  · intro i
    rw [k3 i, k2 i, hrr i, ← g2 i, ← g3 i]
  · have hret1 : (baker_collect s).2 = (baker_collect s).1.active.length := rfl
    have hret2 : (baker_collect (baker_collect s).1).2 =
        (baker_collect (baker_collect s).1).1.active.length := rfl
    rw [hret1, hret2]
    have hmemeq : ∀ i, i ∈ (baker_collect (baker_collect s).1).1.active ↔
        i ∈ (baker_collect s).1.active := by
      intro i
      rw [k6 i, g6 i, hdlen]
      constructor
      · rintro ⟨h1, h2⟩
        refine ⟨h1, ?_⟩
        rw [k2 i, hrr i, ← g2 i] at h2
        exact h2
      · rintro ⟨h1, h2⟩
        refine ⟨h1, ?_⟩
        rw [k2 i, hrr i, ← g2 i]
        exact h2
    have hperm := (List.perm_ext_iff_of_nodup k5 g5).mpr hmemeq
    exact hperm.length_eq

/-- C7: after baker_collect, every finalizable object not reached from
the Roots stack is finalized exactly once (one new finalize_object log
entry) and sits on neither finalizable stack, while every reached
finalizable object is not finalized and sits exactly once on the
swapped-in Finalizable stack (src/gc.c:477-493, 449-463). -/
theorem baker_collect_finalization (s : GCState) (hwf : GCWF s)
    (hnd : s.finalizable.Nodup) :
    (∀ i ∈ s.finalizable, ¬ RootReachable s i →
      ((baker_collect s).1.finLog.count i = s.finLog.count i + 1 ∧
       i ∉ (baker_collect s).1.finalizable ∧
       i ∉ (baker_collect s).1.finalizableNext)) ∧
    (∀ i ∈ s.finalizable, RootReachable s i →
      ((baker_collect s).1.finLog.count i = s.finLog.count i ∧
       (baker_collect s).1.finalizable.count i = 1)) := by
  obtain ⟨g1, g2, g3, g4, g5, g6, g7⟩ := baker_collect_core s hwf
  have hfin : (baker_collect s).1.finalizable =
      (finalize_pass (baker_collect s).1.colors ((s.currentColor + 1) % 256)
        s.finalizable).2 := rfl
  have hlog : (baker_collect s).1.finLog = s.finLog ++
      (finalize_pass (baker_collect s).1.colors ((s.currentColor + 1) % 256)
        s.finalizable).1 := rfl
  have hnext : (baker_collect s).1.finalizableNext = [] := rfl
  rw [finalize_pass_eq] at hfin hlog
  replace hfin : (baker_collect s).1.finalizable =
      s.finalizable.filter (fun j => decide (markedAt (baker_collect s).1.colors
        ((s.currentColor + 1) % 256) j)) := hfin
  replace hlog : (baker_collect s).1.finLog = s.finLog ++
      s.finalizable.filter (fun j => ! decide (markedAt (baker_collect s).1.colors
        ((s.currentColor + 1) % 256) j)) := hlog
  constructor
  · intro i hi hnr
    have hm : ¬ markedAt (baker_collect s).1.colors ((s.currentColor + 1) % 256) i := by
      rw [g2 i]
      exact hnr
    refine ⟨?_, ?_, ?_⟩
    · rw [hlog, List.count_append]
      have hmem : i ∈ s.finalizable.filter
          (fun j => ! decide (markedAt (baker_collect s).1.colors
            ((s.currentColor + 1) % 256) j)) := by
        rw [List.mem_filter]
        exact ⟨hi, by simp [hm]⟩
      have hone := List.count_eq_one_of_mem (hnd.filter _) hmem
      omega
    · rw [hfin]
      intro hmem
      rw [List.mem_filter] at hmem
      have := hmem.2
      simp at this
      exact hm this
    · rw [hnext]
      exact List.not_mem_nil i
  · intro i hi hr
    have hm : markedAt (baker_collect s).1.colors ((s.currentColor + 1) % 256) i := by
      rw [g2 i]
      exact hr
    constructor
    · rw [hlog, List.count_append]
      have hnmem : i ∉ s.finalizable.filter
          (fun j => ! decide (markedAt (baker_collect s).1.colors
            ((s.currentColor + 1) % 256) j)) := by
        intro hmem
        rw [List.mem_filter] at hmem
        have := hmem.2
        simp at this
        exact this hm
      rw [List.count_eq_zero_of_not_mem hnmem]
      omega
    · rw [hfin]
      refine List.count_eq_one_of_mem (hnd.filter _) ?_
      rw [List.mem_filter]
      exact ⟨hi, by simp [hm]⟩

/-- Witness for C3 at the three-cell heap gcW. -/
theorem baker_collect_reachable_old_witness :
    GCWF gcW ∧
    ((∀ i, RootReachable gcW i →
      (i ∈ (baker_collect gcW).1.old ∧
       (baker_collect gcW).1.colors[i]? =
         some (((baker_collect gcW).1.currentColor + 255) % 256))) ∧
     (baker_collect gcW).1.nextFree = (baker_collect gcW).1.active ∧
     (baker_collect gcW).2 = (baker_collect gcW).1.active.length) :=
  ⟨by decide, baker_collect_reachable_old gcW (by decide)⟩

/-- Witness for C5 at the three-cell heap gcW. -/
theorem baker_collect_idempotent_witness :
    (GCWF gcW ∧ ((gcW.currentColor + 3) % 256) ∉ gcW.colors) ∧
    ((∀ i, i ∈ (baker_collect (baker_collect gcW).1).1.old ↔
        i ∈ (baker_collect gcW).1.old) ∧
     (baker_collect (baker_collect gcW).1).2 = (baker_collect gcW).2) :=
  ⟨⟨by decide, by decide⟩, baker_collect_idempotent gcW (by decide) (by decide)⟩

/-- Witness for C7 at the three-cell heap gcW. -/
theorem baker_collect_finalization_witness :
    (GCWF gcW ∧ gcW.finalizable.Nodup) ∧
    ((∀ i ∈ gcW.finalizable, ¬ RootReachable gcW i →
      ((baker_collect gcW).1.finLog.count i = gcW.finLog.count i + 1 ∧
       i ∉ (baker_collect gcW).1.finalizable ∧
       i ∉ (baker_collect gcW).1.finalizableNext)) ∧
     (∀ i ∈ gcW.finalizable, RootReachable gcW i →
      ((baker_collect gcW).1.finLog.count i = gcW.finLog.count i ∧
       (baker_collect gcW).1.finalizable.count i = 1))) :=
  ⟨⟨by decide, by decide⟩, baker_collect_finalization gcW (by decide) (by decide)⟩
